import Mathlib

/-!
Shallow embedding of the game-catalog backend (backend/db_manager.py and
backend/game_dao.py) over a list-based relational store.

Text values are modelled as lists of characters (`Str`), matching SQLite's
BINARY collation (codepoint-wise comparison) and Python string operations
(`split(',')`, `strip()`).  Surrogate ids are `Nat`; SQLite's rowid
allocation for a fresh insert is modelled as `max existing id + 1`.
-/

set_option maxHeartbeats 1000000

namespace GameShiru

/-- Text values, as lists of characters. -/
abbrev Str := List Char

/-- Shorthand for turning a string literal into the model's text type. -/
def str (s : String) : Str := s.toList

/-- Python truthiness check used on string-valued filter entries. -/
def strTruthy (s : Str) : Bool := !s.isEmpty

/-- SQLite BINARY text comparison, codepoint-wise lexicographic. -/
def strLt : Str → Str → Bool
  | [], [] => false
  | [], _ :: _ => true
  | _ :: _, [] => false
  | c :: cs, d :: ds => if c < d then true else if d < c then false else strLt cs ds

/-- Characters stripped by Python's `str.strip()`. -/
def isPySpace (c : Char) : Bool :=
  c == ' ' || c == '\t' || c == '\n' || c == '\r' || c == '\x0b' || c == '\x0c'

/-- Python's `s.strip()`. -/
def pyStrip (s : Str) : Str :=
  ((s.dropWhile isPySpace).reverse.dropWhile isPySpace).reverse

/-- Helper for `splitComma`: accumulate the current field (reversed) while
scanning; emit a field at each comma.  Mirrors Python's `s.split(',')`. -/
def splitCommaAux (acc : Str) : Str → List Str
  | [] => [acc.reverse]
  | c :: cs => if c = ',' then acc.reverse :: splitCommaAux [] cs
               else splitCommaAux (c :: acc) cs

/-- Python's `s.split(',')`. -/
def splitComma (s : Str) : List Str := splitCommaAux [] s

/-- SQL `GROUP_CONCAT`'s comma joining of the aggregated values. -/
def joinComma : List Str → Str
  | [] => []
  | [n] => n
  | n :: ns => n ++ ',' :: joinComma ns

/-- Keep the first occurrence of each value (the `DISTINCT` inside an
aggregate; SQLite's output order for a distinct aggregate is unspecified, and
every claim below treats these collections as sets). -/
def dedupFirstAux {α : Type} [DecidableEq α] (seen : List α) : List α → List α
  | [] => []
  | x :: xs => if x ∈ seen then dedupFirstAux seen xs
               else x :: dedupFirstAux (x :: seen) xs

/-- Entry point for `dedupFirstAux`. -/
def dedupFirst {α : Type} [DecidableEq α] (l : List α) : List α := dedupFirstAux [] l

/-- SQL `MIN` aggregate over a group of integers. -/
def minNat : List Nat → Option Nat
  | [] => none
  | x :: xs => match minNat xs with
    | none => some x
    | some m => some (if x ≤ m then x else m)

/-- Stable insertion: `x` is placed before the first element strictly greater
than it (by `lt`), after any equal keys already present. -/
def stableInsert {α : Type} (lt : α → α → Bool) (x : α) : List α → List α
  | [] => [x]
  | y :: ys => if lt x y then x :: y :: ys else y :: stableInsert lt x ys

/-- Stable insertion sort; models the deterministic row order SQLite produces
(ties keep their prior relative order). -/
def isort {α : Type} (lt : α → α → Bool) : List α → List α
  | [] => []
  | x :: xs => stableInsert lt x (isort lt xs)

/-- SQLite rowid allocation for an insert: one more than the largest id. -/
def freshId (ids : List Nat) : Nat := ids.foldr Nat.max 0 + 1

/-- Row of the `developers` table. -/
structure DevRow where
  developer_id : Nat
  name : Str
  country : Str
deriving DecidableEq, Repr

/-- Row of the `genres` table. -/
structure GenreRow where
  genre_id : Nat
  name : Str
deriving DecidableEq, Repr

/-- Row of the `platforms` table. -/
structure PlatformRow where
  platform_id : Nat
  name : Str
deriving DecidableEq, Repr

/-- Row of the `preferences` (tag) table; `category` is `"genre"` or
`"preference"`. -/
structure PrefRow where
  tag_id : Nat
  name : Str
  category : Str
deriving DecidableEq, Repr

/-- Row of the `games` table. -/
structure GameRow where
  game_id : Nat
  title : Str
  release_date : Str
  description : Str
  rating : Option Int
  price : Option Int
  image_url : Option Str
  developer_id : Nat
  genre_id : Nat
deriving DecidableEq, Repr

/-- The relational store: five base tables and two junction tables
(`game_platforms` and `game_tags` are (game_id, other_id) pairs). -/
structure DB where
  games : List GameRow
  developers : List DevRow
  genres : List GenreRow
  platforms : List PlatformRow
  preferences : List PrefRow
  game_platforms : List (Nat × Nat)
  game_tags : List (Nat × Nat)
deriving DecidableEq, Repr

/-- The tag category literal `'genre'`. -/
def catGenre : Str := str "genre"

/-- The tag category literal `'preference'`. -/
def catPreference : Str := str "preference"

/-!
Connection/transaction manager (`DatabaseManager.transaction`): the body runs
on the current store state; on normal return the reached state is committed,
on an error the uncommitted state is discarded (rollback) and the same error
is re-raised.
-/

/-- `DatabaseManager.transaction`: commit on success, rollback (discarding the
body's partial writes) and re-raise on error. -/
def transaction {α : Type} (body : DB → DB × Except String α) (db : DB) :
    DB × Except String α :=
  match body db with
  | (db2, Except.ok a) => (db2, Except.ok a)
  | (_, Except.error e) => (db, Except.error e)

/-!
`GameDAO.get_game_by_id`: inner joins to developer and genre, left joins to
the two junction sets, `GROUP_CONCAT(DISTINCT ...)` aggregation, then the
Python side splits each aggregate on `','` and strips each piece (an empty or
NULL aggregate is falsy and becomes `[]`).
-/

/-- The record `get_game_by_id` returns. -/
structure GameDetail where
  game_id : Nat
  title : Str
  release_date : Str
  description : Str
  rating : Option Int
  price : Option Int
  image_url : Option Str
  developer_id : Nat
  developer_name : Str
  developer_country : Str
  genre_id : Nat
  genre_name : Str
  platforms : List Str
  genre_tags : List Str
  preference_tags : List Str
deriving DecidableEq, Repr

/-- Python's `[p.strip() for p in row.split(',')] if row else []` applied to a
`GROUP_CONCAT` column (NULL is modelled as the empty string, both falsy). -/
def pySplitField (s : Str) : List Str :=
  if s.isEmpty then [] else (splitComma s).map pyStrip

/-- Names of the platforms joined to game `gid` through `game_platforms`, in
junction order (the `p.name` values contributed by the left joins). -/
def platNamesOf (db : DB) (gid : Nat) : List Str :=
  (db.game_platforms.filter (fun j => j.1 == gid)).flatMap
    (fun j => (db.platforms.filter (fun p => p.platform_id == j.2)).map PlatformRow.name)

/-- Names of the tags of category `cat` joined to game `gid` through
`game_tags` (the `CASE WHEN pref.category = cat THEN pref.name END` values,
NULLs dropped by the aggregate). -/
def tagNamesOf (db : DB) (gid : Nat) (cat : Str) : List Str :=
  (db.game_tags.filter (fun j => j.1 == gid)).flatMap
    (fun j => ((db.preferences.filter (fun t => t.tag_id == j.2)).filter
        (fun t => t.category == cat)).map PrefRow.name)

/-- A `GROUP_CONCAT(DISTINCT ...)` column followed by the Python
split-and-strip post-processing. -/
def concatColumn (names : List Str) : List Str :=
  pySplitField (joinComma (dedupFirst names))

/-- `GameDAO.get_game_by_id`. -/
def get_game_by_id (db : DB) (gid : Nat) : Option GameDetail :=
  match db.games.find? (fun g => g.game_id == gid) with
  | none => none
  | some g =>
    match db.developers.find? (fun d => d.developer_id == g.developer_id),
          db.genres.find? (fun x => x.genre_id == g.genre_id) with
    | some d, some gen =>
        some { game_id := g.game_id, title := g.title,
               release_date := g.release_date, description := g.description,
               rating := g.rating, price := g.price, image_url := g.image_url,
               developer_id := d.developer_id, developer_name := d.name,
               developer_country := d.country,
               genre_id := gen.genre_id, genre_name := gen.name,
               platforms := concatColumn (platNamesOf db g.game_id),
               genre_tags := concatColumn (tagNamesOf db g.game_id catGenre),
               preference_tags := concatColumn (tagNamesOf db g.game_id catPreference) }
    | _, _ => none

/-!
`GameDAO.search_games` and its two modes.  Both share the same FROM clause
(inner joins to developer and genre, chained left joins to the platform and
tag junctions), the same `game_id IN (SELECT MIN(game_id) FROM games GROUP BY
title)` base predicate, and the same GROUP BY / aggregation; they differ in
the WHERE predicate, the presence of the `match_count` column and the ORDER
BY clause.
-/

/-- One row of the joined FROM clause, for a fixed game: the game, its
developer and genre (inner joins), and the `Option`-valued left-join sides
(`NULL` is `none`). -/
structure JoinRow where
  g : GameRow
  d : DevRow
  gen : GenreRow
  platOpt : Option PlatformRow
  gtOpt : Option (Nat × Nat)
  prefOpt : Option PrefRow
deriving DecidableEq, Repr

/-- The chained `LEFT JOIN game_platforms / LEFT JOIN platforms` side of the
FROM clause for one game: no junction gives a single NULL row; a junction
without a matching platform row gives a NULL platform. -/
def platSide (db : DB) (g : GameRow) : List (Option PlatformRow) :=
  match db.game_platforms.filter (fun j => j.1 == g.game_id) with
  | [] => [none]
  | js => js.flatMap (fun j =>
      match db.platforms.filter (fun p => p.platform_id == j.2) with
      | [] => [none]
      | ps => ps.map some)

/-- The chained `LEFT JOIN game_tags / LEFT JOIN preferences` side of the
FROM clause for one game. -/
def tagSide (db : DB) (g : GameRow) : List (Option (Nat × Nat) × Option PrefRow) :=
  match db.game_tags.filter (fun j => j.1 == g.game_id) with
  | [] => [(none, none)]
  | js => js.flatMap (fun j =>
      match db.preferences.filter (fun t => t.tag_id == j.2) with
      | [] => [(some j, none)]
      | ts => ts.map (fun t => (some j, some t)))

/-- All FROM-clause rows for one game (empty when the inner join to the
developer or genre row fails). -/
def joinRows (db : DB) (g : GameRow) : List JoinRow :=
  match db.developers.find? (fun d => d.developer_id == g.developer_id),
        db.genres.find? (fun x => x.genre_id == g.genre_id) with
  | some d, some gen =>
      (platSide db g).flatMap (fun po =>
        (tagSide db g).map (fun tp =>
          { g := g, d := d, gen := gen, platOpt := po,
            gtOpt := tp.1, prefOpt := tp.2 }))
  | _, _ => []

/-- `SELECT MIN(game_id) FROM games GROUP BY title`: one minimum id per
distinct title. -/
def minIds (db : DB) : List Nat :=
  (dedupFirst (db.games.map GameRow.title)).filterMap
    (fun t => minNat ((db.games.filter (fun g => g.title == t)).map GameRow.game_id))

/-- One result row of either search mode (the Python dict; `match_count` is
present only in relevance mode). -/
structure SummaryRow where
  game_id : Nat
  title : Str
  release_date : Str
  description : Str
  rating : Option Int
  price : Option Int
  image_url : Option Str
  developer : Str
  country : Str
  genre : Str
  platforms : List Str
  preference_tags : List Str
  match_count : Option Nat
deriving DecidableEq, Repr

/-- The `CASE WHEN pref.category = 'preference' THEN pref.name END` value of a
join row. -/
def prefNameOfRow (r : JoinRow) : Option Str :=
  match r.prefOpt with
  | some t => if t.category == catPreference then some t.name else none
  | none => none

/-- Build the grouped output row for one game from its surviving join rows
(`r0` is the first of `rows`); `withMc` adds the relevance-mode
`COUNT(DISTINCT CASE WHEN gt.tag_id IS NOT NULL THEN gt.game_id END)`
column, which counts the distinct junction-side game ids. -/
def mkSummary (r0 : JoinRow) (rows : List JoinRow) (withMc : Bool) : SummaryRow :=
  { game_id := r0.g.game_id, title := r0.g.title,
    release_date := r0.g.release_date, description := r0.g.description,
    rating := r0.g.rating, price := r0.g.price, image_url := r0.g.image_url,
    developer := r0.d.name, country := r0.d.country, genre := r0.gen.name,
    platforms := concatColumn (rows.filterMap (fun r => r.platOpt.map PlatformRow.name)),
    preference_tags := concatColumn (rows.filterMap prefNameOfRow),
    match_count :=
      if withMc then some (dedupFirst (rows.filterMap (fun r => r.gtOpt.map Prod.fst))).length
      else none }

/-- The grouped output row for one game, or `none` when no join row survives
the WHERE predicate (the game does not appear in the result). -/
def summaryOf (db : DB) (pred : JoinRow → Bool) (withMc : Bool) (g : GameRow) :
    Option SummaryRow :=
  match (joinRows db g).filter pred with
  | [] => none
  | r0 :: rest => some (mkSummary r0 (r0 :: rest) withMc)

/-- Shared query pipeline of both search modes: restrict to the per-title
minimum-id representatives (the base predicate), filter the join rows with
the WHERE predicate, group per game (groups come out in ascending group-key
order, i.e. by game id), then sort with the ORDER BY comparator (stable, so
ties keep ascending-id order). -/
def searchCore (db : DB) (pred : JoinRow → Bool) (withMc : Bool)
    (lt : SummaryRow → SummaryRow → Bool) : List SummaryRow :=
  isort lt (isort (fun a b => decide (a.game_id < b.game_id))
    ((db.games.filter (fun g => (minIds db).contains g.game_id)).filterMap
      (summaryOf db pred withMc)))

/-- The search filter dictionary; `none` models an absent key and the lists
default to `[]` as in `filters.get('genres', [])`. -/
structure Filters where
  platform : Option Str := none
  genre : Option Str := none
  preference : Option Str := none
  country : Option Str := none
  genres : List Str := []
  preferences : List Str := []
deriving DecidableEq, Repr

/-- `if key in filters and filters[key]`: an absent or falsy (empty) value
adds no condition. -/
def optCond (o : Option Str) (test : Str → Bool) : Bool :=
  match o with
  | some v => if strTruthy v then test v else true
  | none => true

/-- WHERE predicate of the legacy search mode (platform, genre, preference
and country equality conditions, AND-combined; a condition on a NULL
left-join column is not satisfied). -/
def legacyPred (f : Filters) (r : JoinRow) : Bool :=
  optCond f.platform (fun v => match r.platOpt with
    | some p => p.name == v
    | none => false) &&
  optCond f.genre (fun v => r.gen.name == v) &&
  optCond f.preference (fun v => match r.prefOpt with
    | some t => t.name == v && t.category == catPreference
    | none => false) &&
  optCond f.country (fun v => r.d.country == v)

/-- The OR-combined tag conditions of relevance mode: one
`(pref.name = ? AND pref.category = 'genre')` disjunct per supplied genre
tag, then one `(pref.name = ? AND pref.category = 'preference')` disjunct per
supplied preference tag. -/
def tagCond (gts pts : List Str) (r : JoinRow) : Bool :=
  gts.any (fun nm => match r.prefOpt with
    | some t => t.name == nm && t.category == catGenre
    | none => false) ||
  pts.any (fun nm => match r.prefOpt with
    | some t => t.name == nm && t.category == catPreference
    | none => false)

/-- WHERE predicate of relevance mode: the tag OR-group plus the additional
platform and country equality filters. -/
def tagsPred (f : Filters) (r : JoinRow) : Bool :=
  tagCond f.genres f.preferences r &&
  optCond f.platform (fun v => match r.platOpt with
    | some p => p.name == v
    | none => false) &&
  optCond f.country (fun v => r.d.country == v)

/-- `ORDER BY g.release_date DESC/ASC`: descending exactly when the sort key
is `'release_date_desc'`. -/
def legacyLt (sort : Str) (a b : SummaryRow) : Bool :=
  if sort == str "release_date_desc" then strLt b.release_date a.release_date
  else strLt a.release_date b.release_date

/-- `ORDER BY match_count DESC, g.release_date DESC`. -/
def relLt (a b : SummaryRow) : Bool :=
  let ma := a.match_count.getD 0
  let mb := b.match_count.getD 0
  if mb < ma then true
  else if ma < mb then false
  else strLt b.release_date a.release_date

/-- `GameDAO._search_games_legacy`. -/
def search_games_legacy (db : DB) (f : Filters) (sort : Str) : List SummaryRow :=
  searchCore db (legacyPred f) false (legacyLt sort)

/-- `GameDAO._search_games_by_tags` (the `sort_by` argument is never used by
this method). -/
def search_games_by_tags (db : DB) (f : Filters) : List SummaryRow :=
  searchCore db (tagsPred f) true relLt

/-- `GameDAO.search_games`: relevance mode when at least one of the two tag
lists is non-empty (Python truthiness of `genre_tags or preference_tags`),
legacy mode otherwise. -/
def search_games (db : DB) (f : Filters) (sort : Str) : List SummaryRow :=
  if f.genres.isEmpty && f.preferences.isEmpty then search_games_legacy db f sort
  else search_games_by_tags db f

/-!
Dimension resolution (get-or-create), as performed inline by
`GameDAO.create_game` and `GameDAO.update_game`: an
`INSERT OR IGNORE` on the natural key followed by a `SELECT` of the surrogate
id.

Modelled from the spec: the repository's schema file (the `UNIQUE`
constraints that make `INSERT OR IGNORE` a no-op when the natural key already
exists) is not part of the provided sources; per spec §3, each dimension
table is natural-key-unique (developers by (name, country), genres by name,
platforms by name, preferences by (name, category)), so the idempotent insert
is modelled as "append a fresh row only when no row with that natural key
exists".
-/

/-- The shared two-step dimension resolution on one table: look up the
natural key (the row satisfying `natKey`); when absent, append a fresh row
built by `mk` from the next rowid; return the table and the resolved
surrogate id (read by `rid`). -/
def upsert {ρ : Type} (natKey : ρ → Bool) (mk : Nat → ρ) (rid : ρ → Nat)
    (l : List ρ) : List ρ × Nat :=
  match l.find? natKey with
  | some x => (l, rid x)
  | none =>
      let i := freshId (l.map rid)
      (l ++ [mk i], i)

/-- Get-or-create a developer by (name, country). -/
def getOrCreateDeveloper (db : DB) (nm ct : Str) : DB × Nat :=
  let r := upsert (fun d => d.name == nm && d.country == ct)
    (fun i => { developer_id := i, name := nm, country := ct })
    DevRow.developer_id db.developers
  ({ db with developers := r.1 }, r.2)

/-- Get-or-create a genre by name. -/
def getOrCreateGenre (db : DB) (nm : Str) : DB × Nat :=
  let r := upsert (fun x => x.name == nm)
    (fun i => { genre_id := i, name := nm }) GenreRow.genre_id db.genres
  ({ db with genres := r.1 }, r.2)

/-- Get-or-create a platform by name. -/
def getOrCreatePlatform (db : DB) (nm : Str) : DB × Nat :=
  let r := upsert (fun p => p.name == nm)
    (fun i => { platform_id := i, name := nm }) PlatformRow.platform_id db.platforms
  ({ db with platforms := r.1 }, r.2)

/-- Get-or-create a tag by (name, category). -/
def getOrCreateTag (db : DB) (nm cat : Str) : DB × Nat :=
  let r := upsert (fun t => t.name == nm && t.category == cat)
    (fun i => { tag_id := i, name := nm, category := cat }) PrefRow.tag_id db.preferences
  ({ db with preferences := r.1 }, r.2)

/-!
`GameDAO.create_game`.
-/

/-- The nested developer object of a payload. -/
structure DevInput where
  name : Str
  country : Str
deriving DecidableEq, Repr

/-- A `create_game` payload; `genre` is `game_data.get('genre', {}).get('name')`
(absent key gives `none`), the three lists default to `[]`. -/
structure CreatePayload where
  title : Str
  release_date : Str
  description : Str
  rating : Option Int := none
  price : Option Int := none
  image_url : Option Str := none
  developer : DevInput
  genre : Option Str := none
  platforms : List Str := []
  genre_tags : List Str := []
  preference_tags : List Str := []
deriving DecidableEq, Repr

/-- Create's effective genre name: an explicit truthy genre name wins, else
the first genre tag when the list is non-empty, and if the chosen name is
still falsy, the literal `"Unknown"` (both fallbacks test Python
truthiness). -/
def effGenreName (genre : Option Str) (genre_tags : List Str) : Str :=
  let n1 := match genre with
    | some n => n
    | none => []
  let n2 := if n1.isEmpty then
      (match genre_tags with
       | t :: _ => t
       | [] => [])
    else n1
  if n2.isEmpty then str "Unknown" else n2

/-- One iteration of create's platform loop: get-or-create the platform, then
insert a `game_platforms` junction row. -/
def platStep (gid : Nat) (d : DB) (nm : Str) : DB :=
  let r := getOrCreatePlatform d nm
  { r.1 with game_platforms := r.1.game_platforms ++ [(gid, r.2)] }

/-- One iteration of create's tag loops: get-or-create the tag with the given
category, then insert a `game_tags` junction row. -/
def tagStep (gid : Nat) (cat : Str) (d : DB) (nm : Str) : DB :=
  let r := getOrCreateTag d nm cat
  { r.1 with game_tags := r.1.game_tags ++ [(gid, r.2)] }

/-- `GameDAO.create_game`: resolve developer and genre, insert the game row,
then insert one junction row per platform, genre tag and preference tag.
Returns the new game's id. -/
def create_game (db : DB) (p : CreatePayload) : DB × Nat :=
  let r1 := getOrCreateDeveloper db p.developer.name p.developer.country
  let r2 := getOrCreateGenre r1.1 (effGenreName p.genre p.genre_tags)
  let gid := freshId (r2.1.games.map GameRow.game_id)
  let row : GameRow :=
    { game_id := gid, title := p.title, release_date := p.release_date,
      description := p.description, rating := p.rating, price := p.price,
      image_url := p.image_url, developer_id := r1.2, genre_id := r2.2 }
  let db3 := { r2.1 with games := r2.1.games ++ [row] }
  let db4 := p.platforms.foldl (platStep gid) db3
  let db5 := p.genre_tags.foldl (tagStep gid catGenre) db4
  let db6 := p.preference_tags.foldl (tagStep gid catPreference) db5
  (db6, gid)

/-!
`GameDAO.update_game`.
-/

/-- An `update_game` payload: every key may be absent.  For `rating`, `price`
and `image_url` a present key may carry a NULL value, hence the nested
`Option`. -/
structure UpdatePayload where
  title : Option Str := none
  release_date : Option Str := none
  description : Option Str := none
  rating : Option (Option Int) := none
  price : Option (Option Int) := none
  image_url : Option (Option Str) := none
  developer : Option DevInput := none
  genre : Option Str := none
  platforms : Option (List Str) := none
  genre_tags : Option (List Str) := none
  preference_tags : Option (List Str) := none
deriving DecidableEq, Repr

/-- The targeted `UPDATE games SET ...` of the supplied scalar fields. -/
def applyFieldUpdates (p : UpdatePayload) (g : GameRow) : GameRow :=
  let g := match p.title with | some v => { g with title := v } | none => g
  let g := match p.release_date with | some v => { g with release_date := v } | none => g
  let g := match p.description with | some v => { g with description := v } | none => g
  let g := match p.rating with | some v => { g with rating := v } | none => g
  let g := match p.price with | some v => { g with price := v } | none => g
  let g := match p.image_url with | some v => { g with image_url := v } | none => g
  g

/-- Update's effective genre name: the supplied genre name if the `genre` key
is present, else the first genre tag when a truthy `genre_tags` value is
present, else `"Unknown"` (this resolution runs unconditionally in
`update_game`). -/
def updEffGenreName (p : UpdatePayload) : Str :=
  match p.genre with
  | some n => n
  | none =>
      match p.genre_tags with
      | some (t :: _) => t
      | _ => str "Unknown"

/-- `GameDAO.update_game`: checks existence first (returning `false` with no
write), then applies the supplied scalar fields, the developer in-place
update, the genre repoint-or-rename resolution, and the wholesale platform
and tag junction replacements. -/
def update_game (db : DB) (gid : Nat) (p : UpdatePayload) : DB × Bool :=
  match get_game_by_id db gid with
  | none => (db, false)
  | some existing =>
      let d1 := { db with games := (db.games.map
        (fun (g : GameRow) => if g.game_id == gid then applyFieldUpdates p g else g)) }
      let d2 := match p.developer with
        | some dv => { d1 with developers := (d1.developers.map
            (fun (d : DevRow) => if d.developer_id == existing.developer_id then
               { d with name := dv.name, country := dv.country } else d)) }
        | none => d1
      let gname := updEffGenreName p
      let d3 := match d2.genres.find? (fun x => x.name == gname) with
        | some gr => { d2 with games := (d2.games.map
            (fun (g : GameRow) => if g.game_id == gid then { g with genre_id := gr.genre_id } else g)) }
        | none => { d2 with genres := (d2.genres.map
            (fun (x : GenreRow) => if x.genre_id == existing.genre_id then { x with name := gname } else x)) }
      let d4 := match p.platforms with
        | some names =>
            let cleared := { d3 with game_platforms := (d3.game_platforms.filter (fun j => !(j.1 == gid))) }
            names.foldl (platStep gid) cleared
        | none => d3
      let d5 := if p.genre_tags.isSome || p.preference_tags.isSome then
          let cleared := { d4 with game_tags := (d4.game_tags.filter (fun j => !(j.1 == gid))) }
          let withG := (p.genre_tags.getD []).foldl (tagStep gid catGenre) cleared
          (p.preference_tags.getD []).foldl (tagStep gid catPreference) withG
        else d4
      (d5, true)

/-- `GameDAO.delete_game`: checks existence first (returning `false` with no
write), then deletes the game's platform junction rows, its tag junction
rows, and finally the game row itself. -/
def delete_game (db : DB) (gid : Nat) : DB × Bool :=
  match get_game_by_id db gid with
  | none => (db, false)
  | some _ =>
      let d1 := { db with game_platforms := db.game_platforms.filter (fun j => !(j.1 == gid)) }
      let d2 := { d1 with game_tags := d1.game_tags.filter (fun j => !(j.1 == gid)) }
      let d3 := { d2 with games := d2.games.filter (fun g => !(g.game_id == gid)) }
      (d3, true)

/-!
Well-formedness of a store state, as guaranteed by the storage boundary
(primary keys on the five base tables, enforced foreign keys from the
junction tables into `games`).
-/

/-- Store well-formedness: surrogate ids are primary keys and junction rows
reference existing games. -/
def WFDB (db : DB) : Prop :=
  (db.games.map GameRow.game_id).Nodup
  ∧ (db.developers.map DevRow.developer_id).Nodup
  ∧ (db.genres.map GenreRow.genre_id).Nodup
  ∧ (db.platforms.map PlatformRow.platform_id).Nodup
  ∧ (db.preferences.map PrefRow.tag_id).Nodup
  ∧ (∀ j ∈ db.game_platforms, j.1 ∈ db.games.map GameRow.game_id)
  ∧ (∀ j ∈ db.game_tags, j.1 ∈ db.games.map GameRow.game_id)

/-- A text value that survives the comma-joined `GROUP_CONCAT` aggregation
followed by Python's split-and-strip: non-empty, comma-free, and already
stripped. -/
def GoodName (n : Str) : Prop :=
  n ≠ [] ∧ ',' ∉ n ∧ pyStrip n = n

instance (db : DB) : Decidable (WFDB db) := by
  unfold WFDB
  infer_instance

instance (n : Str) : Decidable (GoodName n) := by
  unfold GoodName
  infer_instance

/-!
Concrete store states and payloads used by the evaluation theorems,
counterexamples and witnesses below.
-/

/-- The empty store. -/
def dbEmpty : DB :=
  { games := [], developers := [], genres := [], platforms := [],
    preferences := [], game_platforms := [], game_tags := [] }

/-- Store for the relevance-mode example: game 1 matches both supplied tags,
game 2 matches one, game 3 matches none; game 2 has the latest release date
among the matching games. -/
def dbRel : DB :=
  { games := [
      { game_id := 1, title := str "A", release_date := str "2024-01-01",
        description := str "a", rating := none, price := none, image_url := none,
        developer_id := 1, genre_id := 1 },
      { game_id := 2, title := str "B", release_date := str "2025-01-01",
        description := str "b", rating := none, price := none, image_url := none,
        developer_id := 1, genre_id := 1 },
      { game_id := 3, title := str "C", release_date := str "2026-01-01",
        description := str "c", rating := none, price := none, image_url := none,
        developer_id := 1, genre_id := 1 }],
    developers := [{ developer_id := 1, name := str "D", country := str "JP" }],
    genres := [{ genre_id := 1, name := str "RPG" }],
    platforms := [],
    preferences := [
      { tag_id := 1, name := str "Action", category := catGenre },
      { tag_id := 2, name := str "Co-op", category := catPreference }],
    game_platforms := [],
    game_tags := [(1, 1), (1, 2), (2, 1)] }

/-- The mixed-category tag filter set {"Action" (genre), "Co-op"
(preference)}. -/
def fRel : Filters := { genres := [str "Action"], preferences := [str "Co-op"] }

/-- Store with a single game whose genre is "RPG", for the partial-update
example. -/
def dbUpd : DB :=
  { games := [
      { game_id := 1, title := str "G", release_date := str "2020-01-01",
        description := str "d", rating := none, price := none, image_url := none,
        developer_id := 1, genre_id := 1 }],
    developers := [{ developer_id := 1, name := str "Dev", country := str "JP" }],
    genres := [{ genre_id := 1, name := str "RPG" }],
    platforms := [], preferences := [], game_platforms := [], game_tags := [] }

/-- The rating-only partial payload `{rating: 9.0}`. -/
def payRatingOnly : UpdatePayload := { rating := some (some 9) }

/-- Store with two games of identical title and surrogate ids 5 and 9 (the
spec's title-dedup example). -/
def dbDup : DB :=
  { games := [
      { game_id := 5, title := str "X", release_date := str "2020-01-01",
        description := str "x", rating := none, price := none, image_url := none,
        developer_id := 1, genre_id := 1 },
      { game_id := 9, title := str "X", release_date := str "2021-01-01",
        description := str "y", rating := none, price := none, image_url := none,
        developer_id := 1, genre_id := 1 }],
    developers := [{ developer_id := 1, name := str "D", country := str "JP" }],
    genres := [{ genre_id := 1, name := str "RPG" }],
    platforms := [], preferences := [], game_platforms := [], game_tags := [] }

/-- The summary row Search returns for the duplicated-title store `dbDup`
(the id-5 representative). -/
def rowDup : SummaryRow :=
  { game_id := 5, title := str "X", release_date := str "2020-01-01",
    description := str "x", rating := none, price := none, image_url := none,
    developer := str "D", country := str "JP", genre := str "RPG",
    platforms := [], preference_tags := [], match_count := none }

/-- The summary row relevance-mode Search returns for game 2 of `dbRel`. -/
def rowRel : SummaryRow :=
  { game_id := 2, title := str "B", release_date := str "2025-01-01",
    description := str "b", rating := none, price := none, image_url := none,
    developer := str "D", country := str "JP", genre := str "RPG",
    platforms := [], preference_tags := [], match_count := some 1 }

/-- A create payload whose platform name contains a comma. -/
def payComma : CreatePayload :=
  { title := str "T", release_date := str "2020-01-01", description := str "d",
    developer := { name := str "Dev", country := str "JP" },
    genre := some (str "RPG"), platforms := [str "A,B"] }

/-- A well-behaved create payload (non-empty, comma-free, stripped names). -/
def payGood : CreatePayload :=
  { title := str "T", release_date := str "2020-01-01", description := str "d",
    developer := { name := str "Atlus", country := str "Japan" },
    genre := some (str "RPG"),
    platforms := [str "PC", str "Switch"],
    genre_tags := [str "Action"],
    preference_tags := [str "Co-op", str "Action"] }

/-- A transaction body that performs the first statements of a create (resolve
the developer, insert the game row) and then fails, modelling a forced fault
during the platform junction insert. -/
def faultyCreateBody (d : DB) : DB × Except String Nat :=
  let r1 := getOrCreateDeveloper d (str "Atlus") (str "Japan")
  let gid := freshId (r1.1.games.map GameRow.game_id)
  let row : GameRow :=
    { game_id := gid, title := str "T", release_date := str "2020-01-01",
      description := str "d", rating := none, price := none, image_url := none,
      developer_id := r1.2, genre_id := 1 }
  ({ r1.1 with games := r1.1.games ++ [row] }, Except.error "platform junction insert fault")

/-!
General helper lemmas.
-/

/-- If `find?` fails on the first list, searching the concatenation searches
the second list. -/
theorem find?_append_of_none {α : Type} (p : α → Bool) {l : List α} (l2 : List α)
    (h : l.find? p = none) : (l ++ l2).find? p = l2.find? p := by
  induction l with
  | nil => rfl
  | cons x xs ih =>
      rcases hx : p x with _ | _
      · rw [List.cons_append, List.find?_cons_of_neg _ (by simp [hx])]
        exact ih (by rw [List.find?_cons_of_neg _ (by simp [hx])] at h; exact h)
      · rw [List.find?_cons_of_pos _ hx] at h; cases h

/-- Resolving the same natural key twice through `upsert` returns the same
table and the same surrogate id. -/
theorem upsert_idem {ρ : Type} (natKey : ρ → Bool) (mk : Nat → ρ) (rid : ρ → Nat)
    (l : List ρ) (hmkid : ∀ i, rid (mk i) = i) (hkey : ∀ i, natKey (mk i) = true) :
    upsert natKey mk rid (upsert natKey mk rid l).1 = upsert natKey mk rid l := by
  cases h : l.find? natKey with
  | some x =>
      have h1 : upsert natKey mk rid l = (l, rid x) := by
        unfold upsert
        rw [h]
      rw [h1]
      exact h1
  | none =>
      have h1 : upsert natKey mk rid l
          = (l ++ [mk (freshId (l.map rid))], freshId (l.map rid)) := by
        unfold upsert
        rw [h]
      rw [h1]
      unfold upsert
      rw [find?_append_of_none _ _ h, List.find?_cons_of_pos _ (hkey _)]
      simp [hmkid]

/-- A `find?` over rows whose key has been filtered away returns nothing. -/
theorem find?_key_filter_ne {α : Type} (key : α → Nat) (l : List α) (k : Nat) :
    (l.filter (fun x => !(key x == k))).find? (fun x => key x == k) = none := by
  apply List.find?_eq_none.mpr
  intro x hx
  have h2 := (List.mem_filter.mp hx).2
  simp only [Bool.not_eq_true', beq_eq_false_iff_ne] at h2
  simp [h2]

/-- Membership in a stable insertion. -/
theorem mem_stableInsert {α : Type} (lt : α → α → Bool) (x y : α) (l : List α) :
    y ∈ stableInsert lt x l ↔ y = x ∨ y ∈ l := by
  induction l with
  | nil => simp [stableInsert]
  | cons z zs ih =>
      by_cases h : lt x z = true
      · simp [stableInsert, h]
      · simp only [stableInsert, h]
        rw [if_neg (by simp [h])]
        simp only [List.mem_cons, ih]
        tauto

/-- Sorting does not change membership. -/
theorem mem_isort {α : Type} (lt : α → α → Bool) (x : α) (l : List α) :
    x ∈ isort lt l ↔ x ∈ l := by
  induction l with
  | nil => simp [isort]
  | cons z zs ih => simp [isort, mem_stableInsert, ih]

/-- Membership in the seen-tracking dedup. -/
theorem mem_dedupFirstAux {α : Type} [DecidableEq α] (seen l : List α) (x : α) :
    x ∈ dedupFirstAux seen l ↔ x ∈ l ∧ x ∉ seen := by
  induction l generalizing seen with
  | nil => simp [dedupFirstAux]
  | cons z zs ih =>
      by_cases h : z ∈ seen
      · rw [show dedupFirstAux seen (z :: zs) = dedupFirstAux seen zs from by
              simp [dedupFirstAux, h],
           ih seen]
        constructor
        · rintro ⟨h1, h2⟩
          exact ⟨List.mem_cons_of_mem _ h1, h2⟩
        · rintro ⟨h1, h2⟩
          rcases List.mem_cons.mp h1 with rfl | h1
          · exact absurd h h2
          · exact ⟨h1, h2⟩
      · rw [show dedupFirstAux seen (z :: zs) = z :: dedupFirstAux (z :: seen) zs from by
              simp [dedupFirstAux, h]]
        constructor
        · intro hx
          rcases List.mem_cons.mp hx with rfl | hx
          · exact ⟨List.mem_cons_self _ _, h⟩
          · rcases (ih (z :: seen)).mp hx with ⟨h1, h2⟩
            exact ⟨List.mem_cons_of_mem _ h1, fun hs => h2 (List.mem_cons_of_mem _ hs)⟩
        · rintro ⟨h1, h2⟩
          rcases List.mem_cons.mp h1 with rfl | h1
          · exact List.mem_cons_self _ _
          · by_cases hzx : x = z
            · exact hzx ▸ List.mem_cons_self _ _
            · refine List.mem_cons_of_mem _ ((ih (z :: seen)).mpr ⟨h1, ?_⟩)
              intro hs
              rcases List.mem_cons.mp hs with h3 | h3
              · exact hzx h3
              · exact h2 h3

/-- Membership in `dedupFirst`. -/
theorem mem_dedupFirst {α : Type} [DecidableEq α] (l : List α) (x : α) :
    x ∈ dedupFirst l ↔ x ∈ l := by
  simp [dedupFirst, mem_dedupFirstAux]

/-- The SQL `MIN` aggregate returns a member of the group. -/
theorem minNat_mem {l : List Nat} {m : Nat} (h : minNat l = some m) : m ∈ l := by
  induction l generalizing m with
  | nil => cases h
  | cons x xs ih =>
      simp only [minNat] at h
      cases hx : minNat xs with
      | none =>
          rw [hx] at h
          cases h
          simp
      | some m2 =>
          rw [hx] at h
          have h2 : some (if x ≤ m2 then x else m2) = some m := h
          by_cases hle : x ≤ m2
          · rw [if_pos hle] at h2
            cases h2
            simp
          · rw [if_neg hle] at h2
            cases h2
            exact List.mem_cons_of_mem _ (ih hx)

/-- The SQL `MIN` aggregate is a lower bound of the group. -/
theorem minNat_le {l : List Nat} {m : Nat} (h : minNat l = some m) :
    ∀ x ∈ l, m ≤ x := by
  induction l generalizing m with
  | nil => cases h
  | cons x xs ih =>
      intro y hy
      simp only [minNat] at h
      cases hx : minNat xs with
      | none =>
          rw [hx] at h
          cases h
          rcases List.mem_cons.mp hy with rfl | h2
          · exact Nat.le_refl _
          · have hnil : xs = [] := by
              cases hxs : xs with
              | nil => rfl
              | cons a l2 =>
                  rw [hxs] at hx
                  simp only [minNat] at hx
                  cases hmm : minNat l2 <;> rw [hmm] at hx <;> cases hx
            rw [hnil] at h2
            cases h2
      | some m2 =>
          rw [hx] at h
          have hh : some (if x ≤ m2 then x else m2) = some m := h
          by_cases hle : x ≤ m2
          · rw [if_pos hle] at hh
            cases hh
            rcases List.mem_cons.mp hy with rfl | h2
            · exact Nat.le_refl _
            · exact Nat.le_trans hle (ih hx y h2)
          · rw [if_neg hle] at hh
            cases hh
            rcases List.mem_cons.mp hy with rfl | h2
            · exact Nat.le_of_lt (Nat.lt_of_not_le hle)
            · exact ih hx y h2

/-- Every join row of a game carries that game in its `g` field. -/
theorem joinRows_g {db : DB} {g : GameRow} {jr : JoinRow} (h : jr ∈ joinRows db g) :
    jr.g = g := by
  unfold joinRows at h
  cases hd : db.developers.find? (fun d => d.developer_id == g.developer_id) with
  | none => rw [hd] at h; cases h
  | some d =>
      cases hx : db.genres.find? (fun x => x.genre_id == g.genre_id) with
      | none => rw [hd, hx] at h; cases h
      | some gen =>
          rw [hd, hx] at h
          rcases List.mem_flatMap.mp h with ⟨po, _, hmem⟩
          rcases List.mem_map.mp hmem with ⟨tp, _, heq⟩
          rw [← heq]

/-- A produced summary row carries its game's id and title. -/
theorem summaryOf_fields {db : DB} {pred : JoinRow → Bool} {wm : Bool} {g : GameRow}
    {r : SummaryRow} (h : summaryOf db pred wm g = some r) :
    r.game_id = g.game_id ∧ r.title = g.title := by
  unfold summaryOf at h
  cases hf : (joinRows db g).filter pred with
  | nil => rw [hf] at h; cases h
  | cons r0 rest =>
      rw [hf] at h
      cases h
      have hr0 : r0 ∈ joinRows db g :=
        (List.mem_filter.mp (hf ▸ List.mem_cons_self r0 rest)).1
      have := joinRows_g hr0
      constructor <;> simp [mkSummary, this]

/-- Elimination for `searchCore` membership: every result row comes from a
game of the store that passes the min-id base predicate and whose grouped
row is the result. -/
theorem searchCore_elim {db : DB} {pred : JoinRow → Bool} {wm : Bool}
    {lt : SummaryRow → SummaryRow → Bool} {r : SummaryRow}
    (hr : r ∈ searchCore db pred wm lt) :
    ∃ g, g ∈ db.games ∧ g.game_id ∈ minIds db ∧ summaryOf db pred wm g = some r := by
  unfold searchCore at hr
  rw [mem_isort, mem_isort] at hr
  rcases List.mem_filterMap.mp hr with ⟨g, hg, hsum⟩
  have h1 := List.mem_filter.mp hg
  exact ⟨g, h1.1, List.elem_iff.mp h1.2, hsum⟩

/-- Under primary-key uniqueness of game ids, a game whose id is in the
per-title minimum set is the minimum of its own title group. -/
theorem minIds_elim {db : DB} (hnd : (db.games.map GameRow.game_id).Nodup)
    {g : GameRow} (hg : g ∈ db.games) (hmin : g.game_id ∈ minIds db) :
    minNat ((db.games.filter (fun x => x.title == g.title)).map GameRow.game_id)
      = some g.game_id := by
  unfold minIds at hmin
  rcases List.mem_filterMap.mp hmin with ⟨t, _, hm⟩
  have hmem := minNat_mem hm
  rcases List.mem_map.mp hmem with ⟨g2, hg2, hid⟩
  have hg2in := (List.mem_filter.mp hg2).1
  have hg2t : g2.title = t := by
    have := (List.mem_filter.mp hg2).2
    simpa using this
  have hgg : g2 = g := List.inj_on_of_nodup_map hnd hg2in hg hid
  have ht : g.title = t := by
    rw [← hgg]
    exact hg2t
  rw [ht]
  exact hm

/-- Scanning a comma-free prefix accumulates it into the current field. -/
theorem splitCommaAux_no_comma (l : Str) : ∀ acc, ',' ∉ l →
    splitCommaAux acc l = [acc.reverse ++ l] := by
  induction l with
  | nil =>
      intro acc _
      simp [splitCommaAux]
  | cons c cs ih =>
      intro acc hc
      have hcc : ¬(c = ',') := fun h => hc (h ▸ List.mem_cons_self c cs)
      rw [show splitCommaAux acc (c :: cs) = splitCommaAux (c :: acc) cs from by
            simp [splitCommaAux, hcc]]
      rw [ih (c :: acc) (fun h => hc (List.mem_cons_of_mem _ h))]
      simp

/-- Splitting a string that starts with a comma-free field followed by a comma
emits that field and continues. -/
theorem splitCommaAux_take (l : Str) : ∀ acc rest, ',' ∉ l →
    splitCommaAux acc (l ++ ',' :: rest) = (acc.reverse ++ l) :: splitCommaAux [] rest := by
  induction l with
  | nil =>
      intro acc rest _
      simp [splitCommaAux]
  | cons c cs ih =>
      intro acc rest hc
      have hcc : ¬(c = ',') := fun h => hc (h ▸ List.mem_cons_self c cs)
      rw [show (c :: cs) ++ ',' :: rest = c :: (cs ++ ',' :: rest) from rfl]
      rw [show splitCommaAux acc (c :: (cs ++ ',' :: rest))
            = splitCommaAux (c :: acc) (cs ++ ',' :: rest) from by
            simp [splitCommaAux, hcc]]
      rw [ih (c :: acc) rest (fun h => hc (List.mem_cons_of_mem _ h))]
      simp

/-- Python's split on comma inverts the comma join when the fields are
comma-free. -/
theorem splitComma_joinComma (ns : List Str) (hne : ns ≠ [])
    (hnc : ∀ n ∈ ns, ',' ∉ n) : splitComma (joinComma ns) = ns := by
  induction ns with
  | nil => exact absurd rfl hne
  | cons n rest ih =>
      cases rest with
      | nil =>
          rw [show joinComma [n] = n from rfl]
          unfold splitComma
          rw [splitCommaAux_no_comma n [] (hnc n (List.mem_cons_self _ _))]
          simp
      | cons m rest2 =>
          rw [show joinComma (n :: m :: rest2) = n ++ ',' :: joinComma (m :: rest2) from rfl]
          unfold splitComma
          rw [splitCommaAux_take n [] _ (hnc n (List.mem_cons_self _ _))]
          have := ih (by simp) (fun x hx => hnc x (List.mem_cons_of_mem _ hx))
          unfold splitComma at this
          rw [this]
          simp

/-- The comma join of a non-empty list of non-empty fields is non-empty. -/
theorem joinComma_ne_nil (ns : List Str) (hne : ns ≠ [])
    (h : ∀ n ∈ ns, n ≠ []) : joinComma ns ≠ [] := by
  cases ns with
  | nil => exact absurd rfl hne
  | cons n rest =>
      cases rest with
      | nil => exact h n (List.mem_cons_self _ _)
      | cons m rest2 =>
          rw [show joinComma (n :: m :: rest2) = n ++ ',' :: joinComma (m :: rest2) from rfl]
          simp

/-- Stripping already-stripped fields is the identity. -/
theorem map_pyStrip_id (ns : List Str) (h : ∀ n ∈ ns, pyStrip n = n) :
    ns.map pyStrip = ns := by
  induction ns with
  | nil => rfl
  | cons n rest ih =>
      rw [List.map_cons, h n (List.mem_cons_self _ _),
          ih (fun x hx => h x (List.mem_cons_of_mem _ hx))]

/-- Dedup of a non-empty list is non-empty. -/
theorem dedupFirst_ne_nil {α : Type} [DecidableEq α] (l : List α) (h : l ≠ []) :
    dedupFirst l ≠ [] := by
  cases l with
  | nil => exact absurd rfl h
  | cons x xs => simp [dedupFirst, dedupFirstAux]

/-- On well-behaved names a `GROUP_CONCAT(DISTINCT ...)` column followed by
Python's split-and-strip returns exactly the distinct names. -/
theorem concatColumn_good (names : List Str) (hn : ∀ n ∈ names, GoodName n) :
    concatColumn names = dedupFirst names := by
  cases hns : names with
  | nil => rfl
  | cons n rest =>
      have hdd : ∀ x ∈ dedupFirst names, GoodName x :=
        fun x hx => hn x ((mem_dedupFirst _ _).mp hx)
      have hddne : dedupFirst names ≠ [] := dedupFirst_ne_nil _ (by rw [hns]; simp)
      have hj : joinComma (dedupFirst names) ≠ [] :=
        joinComma_ne_nil _ hddne (fun x hx => (hdd x hx).1)
      have hjf : (joinComma (dedupFirst names)).isEmpty = false := by
        rw [Bool.eq_false_iff]
        intro hh
        exact hj (List.isEmpty_iff.mp hh)
      rw [← hns]
      unfold concatColumn pySplitField
      rw [hjf]
      simp only [Bool.false_eq_true, if_false]
      rw [splitComma_joinComma _ hddne (fun x hx => (hdd x hx).2.1)]
      exact map_pyStrip_id _ (fun x hx => (hdd x hx).2.2)

/-- Membership in a well-behaved aggregate column is membership in the
aggregated names. -/
theorem mem_concatColumn_good (names : List Str) (hn : ∀ n ∈ names, GoodName n)
    (x : Str) : x ∈ concatColumn names ↔ x ∈ names := by
  rw [concatColumn_good names hn, mem_dedupFirst]

/-- Every id of the list is bounded by the fold maximum. -/
theorem le_foldr_max (ids : List Nat) : ∀ i ∈ ids, i ≤ ids.foldr Nat.max 0 := by
  induction ids with
  | nil => intro i h; cases h
  | cons x xs ih =>
      intro i h
      rcases List.mem_cons.mp h with rfl | h2
      · exact Nat.le_max_left _ _
      · exact Nat.le_trans (ih i h2) (Nat.le_max_right _ _)

/-- A fresh rowid is strictly larger than every existing id. -/
theorem freshId_lt (ids : List Nat) : ∀ i ∈ ids, i < freshId ids :=
  fun i h => Nat.lt_succ_of_le (le_foldr_max ids i h)

/-- A fresh rowid is not an existing id. -/
theorem freshId_not_mem (ids : List Nat) : freshId ids ∉ ids :=
  fun h => Nat.lt_irrefl _ (freshId_lt ids _ h)

/-- With primary-key-unique ids, filtering on a member's key gives exactly
that member. -/
theorem filter_key_singleton {ρ : Type} (key : ρ → Nat) {l : List ρ}
    (hnd : (l.map key).Nodup) {a : ρ} (ha : a ∈ l) :
    l.filter (fun x => key x == key a) = [a] := by
  induction l with
  | nil => cases ha
  | cons x xs ih =>
      have hx := List.nodup_cons.mp (List.map_cons key x xs ▸ hnd)
      rcases List.mem_cons.mp ha with rfl | h2
      · rw [List.filter_cons_of_pos (by simp)]
        have hrest : xs.filter (fun y => key y == key a) = [] := by
          apply List.filter_eq_nil_iff.mpr
          intro y hy hk
          exact hx.1 (List.mem_map.mpr ⟨y, hy, beq_iff_eq.mp hk⟩)
        rw [hrest]
      · have hne : (key x == key a) = false := by
          apply beq_eq_false_iff_ne.mpr
          intro he
          exact hx.1 (List.mem_map.mpr ⟨a, h2, he.symm⟩)
        rw [List.filter_cons_of_neg (by simp [hne])]
        exact ih hx.2 h2

/-- A filter returning a single row means `find?` with the same predicate
returns it. -/
theorem find?_eq_of_filter_singleton {ρ : Type} {p : ρ → Bool} {l : List ρ} {a : ρ}
    (h : l.filter p = [a]) : l.find? p = some a := by
  induction l with
  | nil => cases h
  | cons x xs ih =>
      cases hx : p x with
      | true =>
          rw [List.filter_cons_of_pos hx] at h
          rw [List.find?_cons_of_pos _ hx]
          injection h with h1 _
          rw [h1]
      | false =>
          rw [List.filter_cons_of_neg (by simp [hx])] at h
          rw [List.find?_cons_of_neg _ (by simp [hx])]
          exact ih h

/-- A map equal to a singleton comes from a singleton. -/
theorem map_eq_singleton {α β : Type} {f : α → β} {l : List α} {b : β}
    (h : l.map f = [b]) : ∃ a, l = [a] ∧ f a = b := by
  cases l with
  | nil => cases h
  | cons a l2 =>
      cases l2 with
      | nil =>
          refine ⟨a, rfl, ?_⟩
          simpa using h
      | cons c l3 => simp at h

/-- Appending rows with globally unique keys does not change the result of
filtering on a key already present. -/
theorem filter_key_stable {ρ : Type} (key : ρ → Nat) (A s : List ρ) (k : Nat)
    (hnd : ((A ++ s).map key).Nodup) (hk : k ∈ A.map key) :
    (A ++ s).filter (fun x => key x == k) = A.filter (fun x => key x == k) := by
  rw [List.filter_append]
  have hs : s.filter (fun x => key x == k) = [] := by
    apply List.filter_eq_nil_iff.mpr
    intro y hy hkey
    rw [List.map_append] at hnd
    have hdisj := List.disjoint_of_nodup_append hnd
    exact hdisj hk (List.mem_map.mpr ⟨y, hy, beq_iff_eq.mp hkey⟩)
  rw [hs, List.append_nil]

/-- A `flatMap` whose per-element images are given singletons flattens to the
list of those values. -/
theorem flatMap_eq_of_forall₂ {α β : Type} {f : α → List β} {js : List α}
    {vals : List β} (h : List.Forall₂ (fun j v => f j = [v]) js vals) :
    js.flatMap f = vals := by
  induction h with
  | nil => rfl
  | cons h1 _ ih => rw [List.flatMap_cons, h1, ih]; rfl

/-- A `flatMap` with empty images flattens to nothing. -/
theorem flatMap_eq_nil_of_forall {α β : Type} {f : α → List β} {js : List α}
    (h : ∀ j ∈ js, f j = []) : js.flatMap f = [] := by
  induction js with
  | nil => rfl
  | cons j rest ih =>
      rw [List.flatMap_cons, h j (List.mem_cons_self _ _),
          ih (fun x hx => h x (List.mem_cons_of_mem _ hx))]
      rfl

/-- Specification of one dimension resolution: ids stay unique, the table only
grows, and the resolved id filters to exactly one row carrying the supplied
natural-key fields (read back through the projection `pv`). -/
theorem upsert_spec {ρ τ : Type} (natKey : ρ → Bool) (mk : Nat → ρ) (rid : ρ → Nat)
    (pv : ρ → τ) (v : τ) (l : List ρ)
    (hnd : (l.map rid).Nodup)
    (hmkid : ∀ i, rid (mk i) = i)
    (hkey : ∀ i, natKey (mk i) = true)
    (hpv : ∀ x, natKey x = true → pv x = v) :
    ((upsert natKey mk rid l).1.map rid).Nodup
    ∧ (∃ s, (upsert natKey mk rid l).1 = l ++ s)
    ∧ ((upsert natKey mk rid l).1.filter
          (fun x => rid x == (upsert natKey mk rid l).2)).map pv = [v] := by
  cases h : l.find? natKey with
  | some x =>
      have h1 : upsert natKey mk rid l = (l, rid x) := by
        unfold upsert
        rw [h]
      rw [h1]
      refine ⟨hnd, ⟨[], by simp⟩, ?_⟩
      rw [filter_key_singleton rid hnd (List.mem_of_find?_eq_some h)]
      rw [List.map_singleton, hpv x (List.find?_some h)]
  | none =>
      have h1 : upsert natKey mk rid l
          = (l ++ [mk (freshId (l.map rid))], freshId (l.map rid)) := by
        unfold upsert
        rw [h]
      rw [h1]
      have hfr := freshId_not_mem (l.map rid)
      refine ⟨?_, ⟨[mk (freshId (l.map rid))], rfl⟩, ?_⟩
      · rw [List.map_append, List.map_singleton, hmkid]
        rw [List.nodup_append]
        exact ⟨hnd, List.nodup_singleton _, by
          intro a ha hb
          rw [List.mem_singleton] at hb
          exact hfr (hb ▸ ha)⟩
      · rw [List.filter_append]
        have hl : l.filter (fun x => rid x == freshId (l.map rid)) = [] := by
          apply List.filter_eq_nil_iff.mpr
          intro y hy hkeq
          exact hfr (List.mem_map.mpr ⟨y, hy, beq_iff_eq.mp hkeq⟩)
        have hone : [mk (freshId (l.map rid))].filter
            (fun x => rid x == freshId (l.map rid)) = [mk (freshId (l.map rid))] := by
          rw [List.filter_cons_of_pos (by rw [hmkid]; exact beq_self_eq_true _)]
          rfl
        rw [hl, hone, List.nil_append, List.map_singleton, hpv _ (hkey _)]

/-- One platform-loop iteration: platform ids stay unique, the platform table
only grows, no other table than the platform junctions changes, and exactly
one junction row (game, resolved platform) is appended whose platform id
looks up to the supplied name. -/
theorem platStep_spec (gid : Nat) (d : DB) (nm : Str)
    (hnd : (d.platforms.map PlatformRow.platform_id).Nodup) :
    ((platStep gid d nm).platforms.map PlatformRow.platform_id).Nodup
    ∧ (∃ s, (platStep gid d nm).platforms = d.platforms ++ s)
    ∧ (platStep gid d nm).games = d.games
    ∧ (platStep gid d nm).developers = d.developers
    ∧ (platStep gid d nm).genres = d.genres
    ∧ (platStep gid d nm).preferences = d.preferences
    ∧ (platStep gid d nm).game_tags = d.game_tags
    ∧ ∃ pid, (platStep gid d nm).game_platforms = d.game_platforms ++ [(gid, pid)]
        ∧ ((platStep gid d nm).platforms.filter
            (fun p => p.platform_id == pid)).map PlatformRow.name = [nm] := by
  obtain ⟨h1, h2, h3⟩ := upsert_spec (fun p => p.name == nm)
    (fun i => ({ platform_id := i, name := nm } : PlatformRow))
    PlatformRow.platform_id PlatformRow.name nm d.platforms hnd
    (fun i => rfl) (fun i => by simp) (fun x hx => beq_iff_eq.mp hx)
  exact ⟨h1, h2, rfl, rfl, rfl, rfl, rfl, ⟨_, rfl, h3⟩⟩

/-- The platform loop of a create/update: platform ids stay unique, the
platform table only grows, all other tables except the platform junctions are
untouched, and the appended junction rows pair the game id with platform ids
that look up (in the final store) to exactly the supplied names, in order. -/
theorem platFold_spec (gid : Nat) (names : List Str) : ∀ (d : DB),
    (d.platforms.map PlatformRow.platform_id).Nodup →
    ((names.foldl (platStep gid) d).platforms.map PlatformRow.platform_id).Nodup
    ∧ (∃ s, (names.foldl (platStep gid) d).platforms = d.platforms ++ s)
    ∧ (names.foldl (platStep gid) d).games = d.games
    ∧ (names.foldl (platStep gid) d).developers = d.developers
    ∧ (names.foldl (platStep gid) d).genres = d.genres
    ∧ (names.foldl (platStep gid) d).preferences = d.preferences
    ∧ (names.foldl (platStep gid) d).game_tags = d.game_tags
    ∧ ∃ js, (names.foldl (platStep gid) d).game_platforms = d.game_platforms ++ js
        ∧ List.Forall₂ (fun (j : Nat × Nat) nm => j.1 = gid
            ∧ ((names.foldl (platStep gid) d).platforms.filter
                (fun p => p.platform_id == j.2)).map PlatformRow.name = [nm]) js names := by
  induction names with
  | nil =>
      intro d hnd
      exact ⟨hnd, ⟨[], by simp⟩, rfl, rfl, rfl, rfl, rfl,
        ⟨[], by simp, List.Forall₂.nil⟩⟩
  | cons nm rest ih =>
      intro d hnd
      rw [List.foldl_cons]
      obtain ⟨s1nd, ⟨s1, hs1⟩, hg1, hd1, hx1, hp1, ht1, pid, hj1, hl1⟩ :=
        platStep_spec gid d nm hnd
      obtain ⟨s2nd, ⟨s2, hs2⟩, hg2, hd2, hx2, hp2, ht2, js2, hj2, hf2⟩ :=
        ih (platStep gid d nm) s1nd
      have hpidmem : pid ∈ (platStep gid d nm).platforms.map PlatformRow.platform_id := by
        obtain ⟨t, hte, htn⟩ := map_eq_singleton hl1
        have htm := List.mem_filter.mp (hte ▸ List.mem_cons_self t [])
        exact List.mem_map.mpr ⟨t, htm.1, beq_iff_eq.mp htm.2⟩
      have hndapp : (((platStep gid d nm).platforms ++ s2).map
          PlatformRow.platform_id).Nodup := hs2 ▸ s2nd
      have hstable := filter_key_stable PlatformRow.platform_id
        (platStep gid d nm).platforms s2 pid hndapp hpidmem
      refine ⟨s2nd, ⟨s1 ++ s2, by rw [hs2, hs1, List.append_assoc]⟩,
        by rw [hg2, hg1], by rw [hd2, hd1], by rw [hx2, hx1],
        by rw [hp2, hp1], by rw [ht2, ht1],
        ⟨(gid, pid) :: js2, by rw [hj2, hj1]; simp, ?_⟩⟩
      refine List.Forall₂.cons ⟨rfl, ?_⟩ hf2
      rw [hs2, hstable]
      exact hl1

/-- One tag-loop iteration: tag ids stay unique, the tag table only grows, no
table other than the tag junctions changes, and exactly one junction row is
appended whose tag id looks up to the supplied name with the loop's
category. -/
theorem tagStep_spec (gid : Nat) (cat : Str) (d : DB) (nm : Str)
    (hnd : (d.preferences.map PrefRow.tag_id).Nodup) :
    ((tagStep gid cat d nm).preferences.map PrefRow.tag_id).Nodup
    ∧ (∃ s, (tagStep gid cat d nm).preferences = d.preferences ++ s)
    ∧ (tagStep gid cat d nm).games = d.games
    ∧ (tagStep gid cat d nm).developers = d.developers
    ∧ (tagStep gid cat d nm).genres = d.genres
    ∧ (tagStep gid cat d nm).platforms = d.platforms
    ∧ (tagStep gid cat d nm).game_platforms = d.game_platforms
    ∧ ∃ tid, (tagStep gid cat d nm).game_tags = d.game_tags ++ [(gid, tid)]
        ∧ ((tagStep gid cat d nm).preferences.filter
            (fun t => t.tag_id == tid)).map (fun t => (t.name, t.category))
          = [(nm, cat)] := by
  obtain ⟨h1, h2, h3⟩ := upsert_spec (fun t => t.name == nm && t.category == cat)
    (fun i => ({ tag_id := i, name := nm, category := cat } : PrefRow))
    PrefRow.tag_id (fun t => (t.name, t.category)) (nm, cat) d.preferences hnd
    (fun i => rfl) (fun i => by simp)
    (fun x hx => by
      rcases Bool.and_eq_true_iff.mp hx with ⟨ha, hb⟩
      rw [Prod.mk.injEq]
      exact ⟨beq_iff_eq.mp ha, beq_iff_eq.mp hb⟩)
  exact ⟨h1, h2, rfl, rfl, rfl, rfl, rfl, ⟨_, rfl, h3⟩⟩

/-- A tag loop of a create/update (for one category): tag ids stay unique,
the tag table only grows, all other tables except the tag junctions are
untouched, and the appended junction rows pair the game id with tag ids that
look up (in the final store) to exactly the supplied (name, category) pairs,
in order. -/
theorem tagFold_spec (gid : Nat) (cat : Str) (names : List Str) : ∀ (d : DB),
    (d.preferences.map PrefRow.tag_id).Nodup →
    ((names.foldl (tagStep gid cat) d).preferences.map PrefRow.tag_id).Nodup
    ∧ (∃ s, (names.foldl (tagStep gid cat) d).preferences = d.preferences ++ s)
    ∧ (names.foldl (tagStep gid cat) d).games = d.games
    ∧ (names.foldl (tagStep gid cat) d).developers = d.developers
    ∧ (names.foldl (tagStep gid cat) d).genres = d.genres
    ∧ (names.foldl (tagStep gid cat) d).platforms = d.platforms
    ∧ (names.foldl (tagStep gid cat) d).game_platforms = d.game_platforms
    ∧ ∃ js, (names.foldl (tagStep gid cat) d).game_tags = d.game_tags ++ js
        ∧ List.Forall₂ (fun (j : Nat × Nat) nm => j.1 = gid
            ∧ ((names.foldl (tagStep gid cat) d).preferences.filter
                (fun t => t.tag_id == j.2)).map (fun t => (t.name, t.category))
              = [(nm, cat)]) js names := by
  induction names with
  | nil =>
      intro d hnd
      exact ⟨hnd, ⟨[], by simp⟩, rfl, rfl, rfl, rfl, rfl,
        ⟨[], by simp, List.Forall₂.nil⟩⟩
  | cons nm rest ih =>
      intro d hnd
      rw [List.foldl_cons]
      obtain ⟨s1nd, ⟨s1, hs1⟩, hg1, hd1, hx1, hp1, hgp1, tid, hj1, hl1⟩ :=
        tagStep_spec gid cat d nm hnd
      obtain ⟨s2nd, ⟨s2, hs2⟩, hg2, hd2, hx2, hp2, hgp2, js2, hj2, hf2⟩ :=
        ih (tagStep gid cat d nm) s1nd
      have htidmem : tid ∈ (tagStep gid cat d nm).preferences.map PrefRow.tag_id := by
        obtain ⟨t, hte, htn⟩ := map_eq_singleton hl1
        have htm := List.mem_filter.mp (hte ▸ List.mem_cons_self t [])
        exact List.mem_map.mpr ⟨t, htm.1, beq_iff_eq.mp htm.2⟩
      have hndapp : (((tagStep gid cat d nm).preferences ++ s2).map
          PrefRow.tag_id).Nodup := hs2 ▸ s2nd
      have hstable := filter_key_stable PrefRow.tag_id
        (tagStep gid cat d nm).preferences s2 tid hndapp htidmem
      refine ⟨s2nd, ⟨s1 ++ s2, by rw [hs2, hs1, List.append_assoc]⟩,
        by rw [hg2, hg1], by rw [hd2, hd1], by rw [hx2, hx1],
        by rw [hp2, hp1], by rw [hgp2, hgp1],
        ⟨(gid, tid) :: js2, by rw [hj2, hj1]; simp, ?_⟩⟩
      refine List.Forall₂.cons ⟨rfl, ?_⟩ hf2
      rw [hs2, hstable]
      exact hl1

/-- Filtering junction rows on a game id removes exactly the foreign rows. -/
theorem filter_fst_append (A js : List (Nat × Nat)) (gid : Nat)
    (hA : ∀ j ∈ A, j.1 ≠ gid) (hjs : ∀ j ∈ js, j.1 = gid) :
    (A ++ js).filter (fun j => j.1 == gid) = js := by
  rw [List.filter_append]
  have h1 : A.filter (fun j => j.1 == gid) = [] :=
    List.filter_eq_nil_iff.mpr (fun j hj hk => hA j hj (beq_iff_eq.mp hk))
  have h2 : js.filter (fun j => j.1 == gid) = js :=
    List.filter_eq_self.mpr (fun j hj => by simp [hjs j hj])
  rw [h1, h2, List.nil_append]

/-- Left components of a `Forall₂` all satisfy any fact the relation
forces. -/
theorem forall₂_mem_left {α β : Type} {R : α → β → Prop} {l1 : List α} {l2 : List β}
    (h : List.Forall₂ R l1 l2) : ∀ a ∈ l1, ∃ b ∈ l2, R a b := by
  induction h with
  | nil => intro a ha; cases ha
  | cons h1 _ ih =>
      intro a ha
      rcases List.mem_cons.mp ha with rfl | ha2
      · exact ⟨_, List.mem_cons_self _ _, h1⟩
      · rcases ih a ha2 with ⟨b, hb, hr⟩
        exact ⟨b, List.mem_cons_of_mem _ hb, hr⟩

/-- A singleton (name, category) lookup survives appending rows with globally
unique tag ids. -/
theorem pair_lookup_stable {A s : List PrefRow} {k : Nat} {v : Str × Str}
    (hnd : ((A ++ s).map PrefRow.tag_id).Nodup)
    (h : (A.filter (fun t => t.tag_id == k)).map (fun t => (t.name, t.category)) = [v]) :
    ((A ++ s).filter (fun t => t.tag_id == k)).map (fun t => (t.name, t.category)) = [v] := by
  obtain ⟨t, hte, _⟩ := map_eq_singleton h
  have htm := List.mem_filter.mp (hte ▸ List.mem_cons_self t [])
  have hk : k ∈ A.map PrefRow.tag_id :=
    List.mem_map.mpr ⟨t, htm.1, beq_iff_eq.mp htm.2⟩
  rw [filter_key_stable PrefRow.tag_id A s k hnd hk, h]

/-- A (name, category) singleton lookup, further filtered by a category
literal, keeps the name exactly when the categories agree. -/
theorem lookup_cat_of_pair {prefs : List PrefRow} {k : Nat} {nm cat : Str}
    (h : (prefs.filter (fun t => t.tag_id == k)).map (fun t => (t.name, t.category))
        = [(nm, cat)]) (cat2 : Str) :
    ((prefs.filter (fun t => t.tag_id == k)).filter
        (fun t => t.category == cat2)).map PrefRow.name
      = if cat = cat2 then [nm] else [] := by
  obtain ⟨t, hte, htv⟩ := map_eq_singleton h
  obtain ⟨hn, hc⟩ := Prod.mk.injEq _ _ _ _ ▸ htv
  rw [hte]
  by_cases hcc : cat = cat2
  · rw [if_pos hcc]
    rw [List.filter_cons_of_pos (by rw [hc, hcc]; exact beq_self_eq_true _)]
    show [t.name] = [nm]
    rw [hn]
  · rw [if_neg hcc]
    rw [List.filter_cons_of_neg (by simp [hc, hcc])]
    rfl

/-- One developer resolution: developer ids stay unique, the developer table
only grows, every other table is untouched, and the resolved id looks up to
the supplied (name, country). -/
theorem getOrCreateDeveloper_spec (db : DB) (nm ct : Str)
    (hnd : (db.developers.map DevRow.developer_id).Nodup) :
    (((getOrCreateDeveloper db nm ct).1.developers.map DevRow.developer_id).Nodup)
    ∧ (∃ s, (getOrCreateDeveloper db nm ct).1.developers = db.developers ++ s)
    ∧ (getOrCreateDeveloper db nm ct).1.games = db.games
    ∧ (getOrCreateDeveloper db nm ct).1.genres = db.genres
    ∧ (getOrCreateDeveloper db nm ct).1.platforms = db.platforms
    ∧ (getOrCreateDeveloper db nm ct).1.preferences = db.preferences
    ∧ (getOrCreateDeveloper db nm ct).1.game_platforms = db.game_platforms
    ∧ (getOrCreateDeveloper db nm ct).1.game_tags = db.game_tags
    ∧ ((getOrCreateDeveloper db nm ct).1.developers.filter
        (fun d => d.developer_id == (getOrCreateDeveloper db nm ct).2)).map
        (fun d => (d.name, d.country)) = [(nm, ct)] := by
  obtain ⟨h1, h2, h3⟩ := upsert_spec (fun d => d.name == nm && d.country == ct)
    (fun i => ({ developer_id := i, name := nm, country := ct } : DevRow))
    DevRow.developer_id (fun d => (d.name, d.country)) (nm, ct) db.developers hnd
    (fun i => rfl) (fun i => by simp)
    (fun x hx => by
      rcases Bool.and_eq_true_iff.mp hx with ⟨ha, hb⟩
      rw [Prod.mk.injEq]
      exact ⟨beq_iff_eq.mp ha, beq_iff_eq.mp hb⟩)
  exact ⟨h1, h2, rfl, rfl, rfl, rfl, rfl, rfl, h3⟩

/-- One genre resolution: genre ids stay unique, the genre table only grows,
every other table is untouched, and the resolved id looks up to the supplied
name. -/
theorem getOrCreateGenre_spec (db : DB) (nm : Str)
    (hnd : (db.genres.map GenreRow.genre_id).Nodup) :
    (((getOrCreateGenre db nm).1.genres.map GenreRow.genre_id).Nodup)
    ∧ (∃ s, (getOrCreateGenre db nm).1.genres = db.genres ++ s)
    ∧ (getOrCreateGenre db nm).1.games = db.games
    ∧ (getOrCreateGenre db nm).1.developers = db.developers
    ∧ (getOrCreateGenre db nm).1.platforms = db.platforms
    ∧ (getOrCreateGenre db nm).1.preferences = db.preferences
    ∧ (getOrCreateGenre db nm).1.game_platforms = db.game_platforms
    ∧ (getOrCreateGenre db nm).1.game_tags = db.game_tags
    ∧ ((getOrCreateGenre db nm).1.genres.filter
        (fun x => x.genre_id == (getOrCreateGenre db nm).2)).map GenreRow.name
      = [nm] := by
  obtain ⟨h1, h2, h3⟩ := upsert_spec (fun x => x.name == nm)
    (fun i => ({ genre_id := i, name := nm } : GenreRow))
    GenreRow.genre_id GenreRow.name nm db.genres hnd
    (fun i => rfl) (fun i => by simp) (fun x hx => beq_iff_eq.mp hx)
  exact ⟨h1, h2, rfl, rfl, rfl, rfl, rfl, rfl, h3⟩

/-- A summary is only produced when some join row passes the WHERE
predicate. -/
theorem summaryOf_some_exists {db : DB} {pred : JoinRow → Bool} {wm : Bool}
    {g : GameRow} {r : SummaryRow} (h : summaryOf db pred wm g = some r) :
    ∃ jr, jr ∈ joinRows db g ∧ pred jr = true := by
  unfold summaryOf at h
  cases hf : (joinRows db g).filter pred with
  | nil => rw [hf] at h; cases h
  | cons r0 rest =>
      have hr0 := List.mem_filter.mp (hf ▸ List.mem_cons_self r0 rest)
      exact ⟨r0, hr0.1, hr0.2⟩

/-- A join row whose preference side is populated comes from a tag junction
row of the game and a tag row it references. -/
theorem tagSide_elim {db : DB} {g : GameRow} {tp : Option (Nat × Nat) × Option PrefRow}
    (htp : tp ∈ tagSide db g) {t : PrefRow} (ht : tp.2 = some t) :
    ∃ j, j ∈ db.game_tags ∧ j.1 = g.game_id ∧ t ∈ db.preferences ∧ t.tag_id = j.2 := by
  unfold tagSide at htp
  cases hjs : db.game_tags.filter (fun j => j.1 == g.game_id) with
  | nil =>
      rw [hjs] at htp
      simp only [List.mem_singleton] at htp
      rw [htp] at ht
      cases ht
  | cons a as =>
      rw [hjs] at htp
      rcases List.mem_flatMap.mp htp with ⟨j, hj, hmem⟩
      have hjfull : j ∈ db.game_tags.filter (fun j => j.1 == g.game_id) := hjs ▸ hj
      have hj1 := List.mem_filter.mp hjfull
      have hjgid : j.1 = g.game_id := by simpa using hj1.2
      cases hts : db.preferences.filter (fun x => x.tag_id == j.2) with
      | nil =>
          rw [hts] at hmem
          simp only [List.mem_singleton] at hmem
          rw [hmem] at ht
          cases ht
      | cons b bs =>
          rw [hts] at hmem
          rcases List.mem_map.mp hmem with ⟨t2, ht2, heq⟩
          have ht2full : t2 ∈ db.preferences.filter (fun x => x.tag_id == j.2) := hts ▸ ht2
          have ht2m := List.mem_filter.mp ht2full
          have htid : t2.tag_id = j.2 := by simpa using ht2m.2
          rw [← heq] at ht
          cases ht
          exact ⟨j, hj1.1, hjgid, ht2m.1, htid⟩

/-- The preference side of a join row comes from a tag junction of its
game. -/
theorem joinRows_pref {db : DB} {g : GameRow} {jr : JoinRow} (h : jr ∈ joinRows db g)
    {t : PrefRow} (ht : jr.prefOpt = some t) :
    ∃ j, j ∈ db.game_tags ∧ j.1 = g.game_id ∧ t ∈ db.preferences ∧ t.tag_id = j.2 := by
  unfold joinRows at h
  cases hd : db.developers.find? (fun d => d.developer_id == g.developer_id) with
  | none => rw [hd] at h; cases h
  | some d =>
      cases hx : db.genres.find? (fun x => x.genre_id == g.genre_id) with
      | none => rw [hd, hx] at h; cases h
      | some gen =>
          rw [hd, hx] at h
          rcases List.mem_flatMap.mp h with ⟨po, _, hmem⟩
          rcases List.mem_map.mp hmem with ⟨tp, htp, heq⟩
          have : tp.2 = some t := by rw [← heq] at ht; exact ht
          exact tagSide_elim htp this

/-- A join row passes the OR-combined tag conditions only through a tag row
qualified by its own category. -/
theorem tagCond_elim {gts pts : List Str} {r : JoinRow} (h : tagCond gts pts r = true) :
    ∃ t, r.prefOpt = some t
      ∧ ((t.name ∈ gts ∧ t.category = catGenre)
         ∨ (t.name ∈ pts ∧ t.category = catPreference)) := by
  unfold tagCond at h
  rcases Bool.or_eq_true_iff.mp h with h1 | h1
  · rcases List.any_eq_true.mp h1 with ⟨nm, hnm, hcond⟩
    cases hp : r.prefOpt with
    | none => rw [hp] at hcond; cases hcond
    | some t =>
        rw [hp] at hcond
        rcases Bool.and_eq_true_iff.mp hcond with ⟨hn, hc⟩
        exact ⟨t, rfl, Or.inl ⟨beq_iff_eq.mp hn ▸ hnm, beq_iff_eq.mp hc⟩⟩
  · rcases List.any_eq_true.mp h1 with ⟨nm, hnm, hcond⟩
    cases hp : r.prefOpt with
    | none => rw [hp] at hcond; cases hcond
    | some t =>
        rw [hp] at hcond
        rcases Bool.and_eq_true_iff.mp hcond with ⟨hn, hc⟩
        exact ⟨t, rfl, Or.inr ⟨beq_iff_eq.mp hn ▸ hnm, beq_iff_eq.mp hc⟩⟩

/-!
Claim theorems.
-/

/-- Claim C2: the transaction manager rolls back every statement of a failing
scope — the store after the call is exactly the store before it, and the
error is propagated unchanged — while a normally returning scope commits the
state it reached. -/
theorem transaction_rollback_commit {α : Type} (body : DB → DB × Except String α) (db : DB) :
    (∀ dbp e, body db = (dbp, Except.error e) → transaction body db = (db, Except.error e))
    ∧ (∀ db2 a, body db = (db2, Except.ok a) → transaction body db = (db2, Except.ok a)) := by
  constructor
  · intro dbp e h
    simp [transaction, h]
  · intro db2 a h
    simp [transaction, h]

/-- Claim C2 witness: a create that resolves its developer, inserts the game
row and then fails during the platform junction insert leaves the (empty)
store unchanged even though its body had reached a different state, and the
caller sees the original error. -/
theorem transaction_rollback_commit_witness :
    transaction faultyCreateBody dbEmpty
      = (dbEmpty, Except.error "platform junction insert fault")
    ∧ (faultyCreateBody dbEmpty).1 ≠ dbEmpty :=
  ⟨(transaction_rollback_commit faultyCreateBody dbEmpty).1 (faultyCreateBody dbEmpty).1
      "platform junction insert fault" rfl,
   by decide⟩

/-- Claim C10: in relevance mode (some genre-tag or preference-tag filter
supplied) the sort-order argument has no effect — two Search calls differing
only in the sort argument return identical lists, both produced by the
tags-mode pipeline whose ORDER BY is match count descending then release
date descending. -/
theorem relevance_sort_arg_irrelevant (db : DB) (f : Filters) (s1 s2 : Str)
    (h : ¬(f.genres = [] ∧ f.preferences = [])) :
    search_games db f s1 = search_games db f s2
    ∧ search_games db f s1 = search_games_by_tags db f := by
  have hc : (f.genres.isEmpty && f.preferences.isEmpty) = false := by
    cases hg : f.genres with
    | nil =>
        cases hp : f.preferences with
        | nil => exact absurd ⟨hg, hp⟩ h
        | cons a l => simp [hg, hp]
    | cons a l => simp [hg]
  constructor <;> simp [search_games, hc]

/-- Claim C10 witness: with the mixed tag filter set, the descending and
ascending sort keys give the same result on the concrete store. -/
theorem relevance_sort_arg_irrelevant_witness :
    search_games dbRel fRel (str "release_date_desc")
      = search_games dbRel fRel (str "release_date_asc")
    ∧ search_games dbRel fRel (str "release_date_desc") = search_games_by_tags dbRel fRel :=
  relevance_sort_arg_irrelevant dbRel fRel (str "release_date_desc")
    (str "release_date_asc") (by decide)

/-- Claim C1 evaluation: on the spec's own relevance example (tags {"Action"
(genre), "Co-op" (preference)}; game 1 matches both tags, game 2 matches one,
game 3 matches none), the code assigns match_count 1 to BOTH matching games —
not the number of distinct supplied tags matched — and therefore orders by
release date alone, returning the 1-match game 2 before the 2-match game 1.
The zero-match game 3 is correctly excluded. -/
theorem relevance_match_count_eval :
    (search_games dbRel fRel (str "release_date_desc")).map
        (fun r => (r.game_id, r.match_count))
      = [(2, some 1), (1, some 1)] := by decide

/-- Claim C3 evaluation: `Update(1, {rating: 9})` on a game whose genre is
"RPG" reports success and updates the rating while leaving the title intact,
but also renames the game's genre to "Unknown": the unconditional genre
resolution violates the only-supplied-fields contract. -/
theorem update_rating_only_eval :
    (update_game dbUpd 1 payRatingOnly).2 = true
    ∧ (get_game_by_id dbUpd 1).map GameDetail.genre_name = some (str "RPG")
    ∧ (get_game_by_id (update_game dbUpd 1 payRatingOnly).1 1).map GameDetail.rating
        = some (some 9)
    ∧ (get_game_by_id (update_game dbUpd 1 payRatingOnly).1 1).map GameDetail.title
        = some (str "G")
    ∧ (get_game_by_id (update_game dbUpd 1 payRatingOnly).1 1).map GameDetail.genre_name
        = some (str "Unknown") := by decide

/-- Claim C4 counterexample: with an unrecognized sort key (`"bogus"`) and no
tag filters, Search returns the two games in ascending release-date order
[1, 2], not the baseline descending order [2, 1] that the recognized
`"release_date_desc"` key produces on the same store. -/
theorem legacy_unknown_sort_counterexample :
    (search_games dbRel { } (str "bogus")).map SummaryRow.game_id = [1, 2, 3]
    ∧ (search_games dbRel { } (str "release_date_desc")).map SummaryRow.game_id
        = [3, 2, 1] := by decide

/-- Claim C4 amended: with no tag filters, a Search call whose sort key is not
a recognized value returns results without failing, but in the baseline
ASCENDING-by-release-date order — the code treats every sort key other than
`'release_date_desc'` as ascending. -/
theorem legacy_unknown_sort_is_ascending (db : DB) (f : Filters) (s : Str)
    (hg : f.genres = []) (hp : f.preferences = []) (hs : s ≠ str "release_date_desc") :
    search_games db f s = search_games db f (str "release_date_asc") := by
  have h1 : (s == str "release_date_desc") = false := beq_eq_false_iff_ne.mpr hs
  have h2 : legacyLt s = legacyLt (str "release_date_asc") := by
    funext a b
    unfold legacyLt
    rw [h1, show ((str "release_date_asc" : Str) == str "release_date_desc") = false from by decide]
  simp [search_games, hg, hp, search_games_legacy, h2]

/-- Claim C4 amended witness: the unrecognized key `"bogus"` behaves exactly
like the ascending key on the concrete store. -/
theorem legacy_unknown_sort_is_ascending_witness :
    search_games dbRel { } (str "bogus") = search_games dbRel { } (str "release_date_asc") :=
  legacy_unknown_sort_is_ascending dbRel { } (str "bogus") rfl rfl (by decide)

/-- Claim C7: dimension resolution is idempotent — resolving the same natural
key twice (developer (name, country), genre name, platform name, tag (name,
category)) returns the same surrogate id and the same store, so no second
dimension row is ever created for that key. -/
theorem dimension_resolution_idempotent (db : DB) (nm ct gname pname tname cat : Str) :
    getOrCreateDeveloper (getOrCreateDeveloper db nm ct).1 nm ct
      = getOrCreateDeveloper db nm ct
    ∧ getOrCreateGenre (getOrCreateGenre db gname).1 gname = getOrCreateGenre db gname
    ∧ getOrCreatePlatform (getOrCreatePlatform db pname).1 pname
      = getOrCreatePlatform db pname
    ∧ getOrCreateTag (getOrCreateTag db tname cat).1 tname cat
      = getOrCreateTag db tname cat := by
  refine ⟨?_, ?_, ?_, ?_⟩
  · have hi := upsert_idem (fun d => d.name == nm && d.country == ct)
      (fun i => ({ developer_id := i, name := nm, country := ct } : DevRow))
      DevRow.developer_id db.developers (fun i => rfl) (fun i => by simp)
    simp only [getOrCreateDeveloper]
    rw [hi]
  · have hi := upsert_idem (fun x => x.name == gname)
      (fun i => ({ genre_id := i, name := gname } : GenreRow))
      GenreRow.genre_id db.genres (fun i => rfl) (fun i => by simp)
    simp only [getOrCreateGenre]
    rw [hi]
  · have hi := upsert_idem (fun p => p.name == pname)
      (fun i => ({ platform_id := i, name := pname } : PlatformRow))
      PlatformRow.platform_id db.platforms (fun i => rfl) (fun i => by simp)
    simp only [getOrCreatePlatform]
    rw [hi]
  · have hi := upsert_idem (fun t => t.name == tname && t.category == cat)
      (fun i => ({ tag_id := i, name := tname, category := cat } : PrefRow))
      PrefRow.tag_id db.preferences (fun i => rfl) (fun i => by simp)
    simp only [getOrCreateTag]
    rw [hi]

/-- Core of claim C5, stated for the shared query pipeline: every result row
is a game of the store whose id is the minimum among its title group, and two
result rows never share a title. -/
theorem searchCore_title_dedup (db : DB) (hnd : (db.games.map GameRow.game_id).Nodup)
    (pred : JoinRow → Bool) (wm : Bool) (lt : SummaryRow → SummaryRow → Bool)
    (r : SummaryRow) (hr : r ∈ searchCore db pred wm lt) :
    (∃ g, g ∈ db.games ∧ g.game_id = r.game_id ∧ g.title = r.title)
    ∧ (∀ g2, g2 ∈ db.games → g2.title = r.title → r.game_id ≤ g2.game_id)
    ∧ (∀ r2, r2 ∈ searchCore db pred wm lt → r2.title = r.title → r2 = r) := by
  obtain ⟨g, hgin, hgmin, hsum⟩ := searchCore_elim hr
  obtain ⟨hid, htitle⟩ := summaryOf_fields hsum
  have hmin := minIds_elim hnd hgin hgmin
  refine ⟨⟨g, hgin, hid.symm, htitle.symm⟩, ?_, ?_⟩
  · intro g2 hg2 ht2
    have hg2f : g2 ∈ db.games.filter (fun x => x.title == g.title) :=
      List.mem_filter.mpr ⟨hg2, by rw [ht2, htitle]; exact beq_self_eq_true _⟩
    have hmem : g2.game_id
        ∈ (db.games.filter (fun x => x.title == g.title)).map GameRow.game_id :=
      List.mem_map.mpr ⟨g2, hg2f, rfl⟩
    rw [hid]
    exact minNat_le hmin _ hmem
  · intro r2 hr2 ht
    obtain ⟨g2, hg2in, hg2min, hsum2⟩ := searchCore_elim hr2
    obtain ⟨hid2, htitle2⟩ := summaryOf_fields hsum2
    have hmin2 := minIds_elim hnd hg2in hg2min
    have htt : g2.title = g.title := by rw [← htitle2, ht, htitle]
    rw [htt] at hmin2
    have heq : g2.game_id = g.game_id := Option.some.inj (hmin2.symm.trans hmin)
    have hg2eq : g2 = g := List.inj_on_of_nodup_map hnd hg2in hgin heq
    rw [hg2eq] at hsum2
    exact Option.some.inj (hsum2.symm.trans hsum)

/-- Claim C5: in both search modes, for every well-formed store and every
filter/sort combination, Search returns at most one row per distinct title,
and each returned row is the game with the minimum surrogate id among the
rows sharing its title (the base predicate applies independently of the other
filters, which the shared-core statement over every predicate makes
literal). -/
theorem search_title_dedup (db : DB) (hnd : (db.games.map GameRow.game_id).Nodup)
    (f : Filters) (s : Str) (r : SummaryRow) (hr : r ∈ search_games db f s) :
    (∃ g, g ∈ db.games ∧ g.game_id = r.game_id ∧ g.title = r.title)
    ∧ (∀ g2, g2 ∈ db.games → g2.title = r.title → r.game_id ≤ g2.game_id)
    ∧ (∀ r2, r2 ∈ search_games db f s → r2.title = r.title → r2 = r) := by
  by_cases hc : (f.genres.isEmpty && f.preferences.isEmpty) = true
  · have he : search_games db f s = searchCore db (legacyPred f) false (legacyLt s) := by
      simp [search_games, hc, search_games_legacy]
    rw [he] at hr ⊢
    exact searchCore_title_dedup db hnd _ _ _ r hr
  · have hc2 : (f.genres.isEmpty && f.preferences.isEmpty) = false := by
      cases h2 : (f.genres.isEmpty && f.preferences.isEmpty)
      · rfl
      · exact absurd h2 hc
    have he : search_games db f s = searchCore db (tagsPred f) true relLt := by
      simp [search_games, hc2, search_games_by_tags]
    rw [he] at hr ⊢
    exact searchCore_title_dedup db hnd _ _ _ r hr

/-- Claim C5 witness: on the store with two "X"-titled games (ids 5 and 9),
the id-5 row is returned and is minimal among the same-titled games. -/
theorem search_title_dedup_witness :
    rowDup ∈ search_games dbDup { } (str "release_date_desc")
    ∧ (∀ g2, g2 ∈ dbDup.games → g2.title = rowDup.title → rowDup.game_id ≤ g2.game_id) :=
  ⟨by decide,
   (search_title_dedup dbDup (by decide) { } (str "release_date_desc") rowDup
      (by decide)).2.1⟩

/-- Claim C8: deleting an absent id returns false and changes nothing; deleting
an existing game removes its platform junction rows, its tag junction rows and
the game row, after which GetById is not-found and no junction row references
the id. -/
theorem delete_game_spec (db : DB) (gid : Nat) :
    (get_game_by_id db gid = none → delete_game db gid = (db, false))
    ∧ (get_game_by_id db gid ≠ none →
        (delete_game db gid).2 = true
        ∧ get_game_by_id (delete_game db gid).1 gid = none
        ∧ (∀ j ∈ (delete_game db gid).1.game_platforms, j.1 ≠ gid)
        ∧ (∀ j ∈ (delete_game db gid).1.game_tags, j.1 ≠ gid)) := by
  constructor
  · intro h
    simp [delete_game, h]
  · intro h
    cases hg : get_game_by_id db gid with
    | none => exact absurd hg h
    | some d0 =>
        have hf : ((db.games.filter (fun g => !(g.game_id == gid))).find?
            (fun g => g.game_id == gid)) = none :=
          find?_key_filter_ne GameRow.game_id db.games gid
        refine ⟨by simp [delete_game, hg], ?_, ?_, ?_⟩
        · have hd : (delete_game db gid).1.games
              = db.games.filter (fun g => !(g.game_id == gid)) := by
            simp [delete_game, hg]
          simp [get_game_by_id, hd, hf]
        · intro j hj
          have hd : (delete_game db gid).1.game_platforms
              = db.game_platforms.filter (fun j => !(j.1 == gid)) := by
            simp [delete_game, hg]
          rw [hd] at hj
          have h2 := (List.mem_filter.mp hj).2
          simpa using h2
        · intro j hj
          have hd : (delete_game db gid).1.game_tags
              = db.game_tags.filter (fun j => !(j.1 == gid)) := by
            simp [delete_game, hg]
          rw [hd] at hj
          have h2 := (List.mem_filter.mp hj).2
          simpa using h2

/-- Round-trip core, with every intermediate state of `create_game` named by
an equation: after resolving the developer and the effective genre, inserting
the game row and running the three junction loops, GetById of the fresh id
returns the developer pair, the effective genre name, and (as sets) the
supplied platform and tag name lists. -/
theorem create_pipeline_roundtrip (db : DB) (p : CreatePayload) (gname : Str)
    (db1 db2 db3 db4 db5 db6 : DB) (devId genId gid : Nat) (row : GameRow)
    (hwf : WFDB db)
    (hplatgood : ∀ n ∈ p.platforms, GoodName n)
    (hgtgood : ∀ n ∈ p.genre_tags, GoodName n)
    (hptgood : ∀ n ∈ p.preference_tags, GoodName n)
    (hdb1 : db1 = (getOrCreateDeveloper db p.developer.name p.developer.country).1)
    (hdevId : devId = (getOrCreateDeveloper db p.developer.name p.developer.country).2)
    (hdb2 : db2 = (getOrCreateGenre db1 gname).1)
    (hgenId : genId = (getOrCreateGenre db1 gname).2)
    (hgid : gid = freshId (db2.games.map GameRow.game_id))
    (hrow : row =
      { game_id := gid, title := p.title, release_date := p.release_date,
        description := p.description, rating := p.rating, price := p.price,
        image_url := p.image_url, developer_id := devId, genre_id := genId })
    (hdb3 : db3 = { db2 with games := db2.games ++ [row] })
    (hdb4 : db4 = p.platforms.foldl (platStep gid) db3)
    (hdb5 : db5 = p.genre_tags.foldl (tagStep gid catGenre) db4)
    (hdb6 : db6 = p.preference_tags.foldl (tagStep gid catPreference) db5) :
    ∃ detail, get_game_by_id db6 gid = some detail
      ∧ detail.developer_name = p.developer.name
      ∧ detail.developer_country = p.developer.country
      ∧ detail.genre_name = gname
      ∧ (∀ x, x ∈ detail.platforms ↔ x ∈ p.platforms)
      ∧ (∀ x, x ∈ detail.genre_tags ↔ x ∈ p.genre_tags)
      ∧ (∀ x, x ∈ detail.preference_tags ↔ x ∈ p.preference_tags) := by
  obtain ⟨hwfgames, hwfd, hwfgen, hwfp, hwfpref, hwfgp, hwfgt⟩ := hwf
  obtain ⟨nd1, ⟨s1, hs1⟩, e1games, e1gen, e1p, e1pref, e1gp, e1gt, hdevlook⟩ :=
    getOrCreateDeveloper_spec db p.developer.name p.developer.country hwfd
  rw [← hdb1] at nd1 hs1 e1games e1gen e1p e1pref e1gp e1gt hdevlook
  rw [← hdevId] at hdevlook
  have hndgen1 : (db1.genres.map GenreRow.genre_id).Nodup := by
    rw [e1gen]
    exact hwfgen
  obtain ⟨nd2, ⟨s2, hs2⟩, e2games, e2d, e2p, e2pref, e2gp, e2gt, hgenlook⟩ :=
    getOrCreateGenre_spec db1 gname hndgen1
  rw [← hdb2] at nd2 hs2 e2games e2d e2p e2pref e2gp e2gt hgenlook
  rw [← hgenId] at hgenlook
  have e3games : db3.games = db2.games ++ [row] := by rw [hdb3]
  have e3d : db3.developers = db2.developers := by rw [hdb3]
  have e3gen : db3.genres = db2.genres := by rw [hdb3]
  have e3p : db3.platforms = db2.platforms := by rw [hdb3]
  have e3pref : db3.preferences = db2.preferences := by rw [hdb3]
  have e3gp : db3.game_platforms = db2.game_platforms := by rw [hdb3]
  have e3gt : db3.game_tags = db2.game_tags := by rw [hdb3]
  have hndp3 : (db3.platforms.map PlatformRow.platform_id).Nodup := by
    rw [e3p, e2p, e1p]
    exact hwfp
  obtain ⟨nd4, ⟨s4, hs4⟩, e4games, e4d, e4gen, e4pref, e4gt, js4, hjs4, hfa4⟩ :=
    platFold_spec gid p.platforms db3 hndp3
  rw [← hdb4] at nd4 hs4 e4games e4d e4gen e4pref e4gt hjs4 hfa4
  have hndpref4 : (db4.preferences.map PrefRow.tag_id).Nodup := by
    rw [e4pref, e3pref, e2pref, e1pref]
    exact hwfpref
  obtain ⟨nd5, ⟨s5, hs5⟩, e5games, e5d, e5gen, e5p, e5gp, js5, hjs5, hfa5⟩ :=
    tagFold_spec gid catGenre p.genre_tags db4 hndpref4
  rw [← hdb5] at nd5 hs5 e5games e5d e5gen e5p e5gp hjs5 hfa5
  obtain ⟨nd6, ⟨s6, hs6⟩, e6games, e6d, e6gen, e6p, e6gp, js6, hjs6, hfa6⟩ :=
    tagFold_spec gid catPreference p.preference_tags db5 nd5
  rw [← hdb6] at nd6 hs6 e6games e6d e6gen e6p e6gp hjs6 hfa6
  have hgames6 : db6.games = db.games ++ [row] := by
    rw [e6games, e5games, e4games, e3games, e2games, e1games]
  have hdevs6 : db6.developers = db1.developers := by
    rw [e6d, e5d, e4d, e3d, e2d]
  have hgens6 : db6.genres = db2.genres := by
    rw [e6gen, e5gen, e4gen, e3gen]
  have hplats6 : db6.platforms = db4.platforms := by
    rw [e6p, e5p]
  have hgp6 : db6.game_platforms = db.game_platforms ++ js4 := by
    rw [e6gp, e5gp, hjs4, e3gp, e2gp, e1gp]
  have hgt6 : db6.game_tags = (db.game_tags ++ js5) ++ js6 := by
    rw [hjs6, hjs5, e4gt, e3gt, e2gt, e1gt]
  have e2gequiv : db2.games = db.games := by rw [e2games, e1games]
  have hfreshlt : ∀ i ∈ db.games.map GameRow.game_id, i < gid := by
    intro i hi
    rw [hgid]
    refine freshId_lt _ i ?_
    rw [e2gequiv]
    exact hi
  have hne_old : ∀ g ∈ db.games, g.game_id ≠ gid := by
    intro g hgm he
    have hlt := hfreshlt g.game_id (List.mem_map.mpr ⟨g, hgm, rfl⟩)
    rw [he] at hlt
    exact Nat.lt_irrefl _ hlt
  have hrowid : row.game_id = gid := by rw [hrow]
  have hfind : db6.games.find? (fun g => g.game_id == gid) = some row := by
    rw [hgames6]
    rw [find?_append_of_none _ _ (List.find?_eq_none.mpr
      (fun x hx => by simp [hne_old x hx]))]
    exact List.find?_cons_of_pos _ (by rw [hrowid]; exact beq_self_eq_true _)
  obtain ⟨drow, hdfilter, hdpair⟩ := map_eq_singleton hdevlook
  have hdevfind : db6.developers.find? (fun d => d.developer_id == devId) = some drow := by
    rw [hdevs6]
    exact find?_eq_of_filter_singleton hdfilter
  obtain ⟨hdname, hdctry⟩ := Prod.mk.injEq _ _ _ _ ▸ hdpair
  obtain ⟨genrow, hgfilter, hgname2⟩ := map_eq_singleton hgenlook
  have hgenfind : db6.genres.find? (fun x => x.genre_id == genId) = some genrow := by
    rw [hgens6]
    exact find?_eq_of_filter_singleton hgfilter
  have hjs4gid : ∀ j ∈ js4, j.1 = gid := by
    intro j hj
    obtain ⟨nm, _, hrel⟩ := forall₂_mem_left hfa4 j hj
    exact hrel.1
  have hold_gp : ∀ j ∈ db.game_platforms, j.1 ≠ gid := by
    intro j hj he
    have hlt := hfreshlt j.1 (hwfgp j hj)
    rw [he] at hlt
    exact Nat.lt_irrefl _ hlt
  have hgpfilter : db6.game_platforms.filter (fun j => j.1 == gid) = js4 := by
    rw [hgp6]
    exact filter_fst_append _ _ _ hold_gp hjs4gid
  have hplatnames : platNamesOf db6 gid = p.platforms := by
    unfold platNamesOf
    rw [hgpfilter]
    apply flatMap_eq_of_forall₂
    refine List.Forall₂.imp ?_ hfa4
    intro j nm hrel
    rw [hplats6]
    exact hrel.2
  have hjs5gid : ∀ j ∈ js5, j.1 = gid := by
    intro j hj
    obtain ⟨nm, _, hrel⟩ := forall₂_mem_left hfa5 j hj
    exact hrel.1
  have hjs6gid : ∀ j ∈ js6, j.1 = gid := by
    intro j hj
    obtain ⟨nm, _, hrel⟩ := forall₂_mem_left hfa6 j hj
    exact hrel.1
  have hold_gt : ∀ j ∈ db.game_tags, j.1 ≠ gid := by
    intro j hj he
    have hlt := hfreshlt j.1 (hwfgt j hj)
    rw [he] at hlt
    exact Nat.lt_irrefl _ hlt
  have hgtfilter : db6.game_tags.filter (fun j => j.1 == gid) = js5 ++ js6 := by
    rw [hgt6, List.append_assoc]
    refine filter_fst_append _ _ _ hold_gt ?_
    intro j hj
    rcases List.mem_append.mp hj with h1 | h1
    · exact hjs5gid j h1
    · exact hjs6gid j h1
  have hprefs6 : db6.preferences = db5.preferences ++ s6 := hs6
  have hfa5t : List.Forall₂ (fun (j : Nat × Nat) nm =>
      (db6.preferences.filter (fun t => t.tag_id == j.2)).map
        (fun t => (t.name, t.category)) = [(nm, catGenre)]) js5 p.genre_tags := by
    refine List.Forall₂.imp ?_ hfa5
    intro j nm hrel
    rw [hprefs6]
    refine pair_lookup_stable ?_ hrel.2
    rw [← hprefs6]
    exact nd6
  have hfa6t : List.Forall₂ (fun (j : Nat × Nat) nm =>
      (db6.preferences.filter (fun t => t.tag_id == j.2)).map
        (fun t => (t.name, t.category)) = [(nm, catPreference)]) js6 p.preference_tags := by
    refine List.Forall₂.imp ?_ hfa6
    intro j nm hrel
    exact hrel.2
  have htagG : tagNamesOf db6 gid catGenre = p.genre_tags := by
    unfold tagNamesOf
    rw [hgtfilter, List.flatMap_append]
    have h1 : js5.flatMap (fun j => ((db6.preferences.filter
        (fun t => t.tag_id == j.2)).filter (fun t => t.category == catGenre)).map
        PrefRow.name) = p.genre_tags := by
      apply flatMap_eq_of_forall₂
      refine List.Forall₂.imp ?_ hfa5t
      intro j nm hrel
      have hl := lookup_cat_of_pair hrel catGenre
      rw [if_pos rfl] at hl
      exact hl
    have h2 : js6.flatMap (fun j => ((db6.preferences.filter
        (fun t => t.tag_id == j.2)).filter (fun t => t.category == catGenre)).map
        PrefRow.name) = [] := by
      apply flatMap_eq_nil_of_forall
      intro j hj
      obtain ⟨nm, _, hrel⟩ := forall₂_mem_left hfa6t j hj
      have hl := lookup_cat_of_pair hrel catGenre
      rw [if_neg (by decide)] at hl
      exact hl
    rw [h1, h2, List.append_nil]
  have htagP : tagNamesOf db6 gid catPreference = p.preference_tags := by
    unfold tagNamesOf
    rw [hgtfilter, List.flatMap_append]
    have h1 : js5.flatMap (fun j => ((db6.preferences.filter
        (fun t => t.tag_id == j.2)).filter (fun t => t.category == catPreference)).map
        PrefRow.name) = [] := by
      apply flatMap_eq_nil_of_forall
      intro j hj
      obtain ⟨nm, _, hrel⟩ := forall₂_mem_left hfa5t j hj
      have hl := lookup_cat_of_pair hrel catPreference
      rw [if_neg (by decide)] at hl
      exact hl
    have h2 : js6.flatMap (fun j => ((db6.preferences.filter
        (fun t => t.tag_id == j.2)).filter (fun t => t.category == catPreference)).map
        PrefRow.name) = p.preference_tags := by
      apply flatMap_eq_of_forall₂
      refine List.Forall₂.imp ?_ hfa6t
      intro j nm hrel
      have hl := lookup_cat_of_pair hrel catPreference
      rw [if_pos rfl] at hl
      exact hl
    rw [h1, h2, List.nil_append]
  have hget : get_game_by_id db6 gid = some
      { game_id := row.game_id, title := row.title, release_date := row.release_date,
        description := row.description, rating := row.rating, price := row.price,
        image_url := row.image_url,
        developer_id := drow.developer_id, developer_name := drow.name,
        developer_country := drow.country,
        genre_id := genrow.genre_id, genre_name := genrow.name,
        platforms := concatColumn (platNamesOf db6 row.game_id),
        genre_tags := concatColumn (tagNamesOf db6 row.game_id catGenre),
        preference_tags := concatColumn (tagNamesOf db6 row.game_id catPreference) } := by
    unfold get_game_by_id
    rw [hfind]
    have hdevfind2 : db6.developers.find? (fun d => d.developer_id == row.developer_id)
        = some drow := by
      rw [show row.developer_id = devId from by rw [hrow]]
      exact hdevfind
    have hgenfind2 : db6.genres.find? (fun x => x.genre_id == row.genre_id)
        = some genrow := by
      rw [show row.genre_id = genId from by rw [hrow]]
      exact hgenfind
    simp only [hdevfind2, hgenfind2]
  refine ⟨_, hget, hdname, hdctry, hgname2, ?_, ?_, ?_⟩
  · intro x
    show x ∈ concatColumn (platNamesOf db6 row.game_id) ↔ x ∈ p.platforms
    rw [hrowid, hplatnames]
    exact mem_concatColumn_good p.platforms hplatgood x
  · intro x
    show x ∈ concatColumn (tagNamesOf db6 row.game_id catGenre) ↔ x ∈ p.genre_tags
    rw [hrowid, htagG]
    exact mem_concatColumn_good p.genre_tags hgtgood x
  · intro x
    show x ∈ concatColumn (tagNamesOf db6 row.game_id catPreference) ↔ x ∈ p.preference_tags
    rw [hrowid, htagP]
    exact mem_concatColumn_good p.preference_tags hptgood x

/-- Claim C6 counterexample: a payload whose platform name contains a comma
does not round-trip — the comma-joined aggregate is split back into two
names, so the retrieved platform set {"A","B"} differs from the supplied
{"A,B"}. -/
theorem create_get_roundtrip_counterexample :
    (get_game_by_id (create_game dbEmpty payComma).1
        (create_game dbEmpty payComma).2).map GameDetail.platforms
      = some [str "A", str "B"]
    ∧ payComma.platforms = [str "A,B"]
    ∧ str "A,B" ∉ [str "A", str "B"] := by decide

/-- Claim C6 amended: for every well-formed store and every payload whose
platform and tag names are non-empty, comma-free and whitespace-trimmed (and
whose genre is explicitly supplied non-empty), Create followed by GetById of
the returned id yields a record whose developer, genre, platform set,
genre-tag set and preference-tag set (as order-irrelevant sets) exactly equal
those supplied; names violating the comma/whitespace conditions are mangled
by the comma-joined aggregation and are excluded. -/
theorem create_get_roundtrip (db : DB) (p : CreatePayload) (hwf : WFDB db)
    (hnames : ∀ n, n ∈ p.platforms ++ p.genre_tags ++ p.preference_tags → GoodName n)
    (gn : Str) (hg : p.genre = some gn) (hgn : gn ≠ []) :
    ∃ detail, get_game_by_id (create_game db p).1 (create_game db p).2 = some detail
      ∧ detail.developer_name = p.developer.name
      ∧ detail.developer_country = p.developer.country
      ∧ detail.genre_name = gn
      ∧ (∀ x, x ∈ detail.platforms ↔ x ∈ p.platforms)
      ∧ (∀ x, x ∈ detail.genre_tags ↔ x ∈ p.genre_tags)
      ∧ (∀ x, x ∈ detail.preference_tags ↔ x ∈ p.preference_tags) := by
  have hgnisf : gn.isEmpty = false := by
    rw [Bool.eq_false_iff]
    intro hh
    exact hgn (List.isEmpty_iff.mp hh)
  have hgname : effGenreName p.genre p.genre_tags = gn := by
    unfold effGenreName
    rw [hg]
    simp [hgnisf]
  have hpipe := create_pipeline_roundtrip db p (effGenreName p.genre p.genre_tags)
    _ _ _ _ _ _ _ _ _ _ hwf
    (fun n hn => hnames n (List.mem_append.mpr (Or.inl (List.mem_append.mpr (Or.inl hn)))))
    (fun n hn => hnames n (List.mem_append.mpr (Or.inl (List.mem_append.mpr (Or.inr hn)))))
    (fun n hn => hnames n (List.mem_append.mpr (Or.inr hn)))
    rfl rfl rfl rfl rfl rfl rfl rfl rfl rfl
  obtain ⟨detail, h1, h2, h3, h4, h5, h6, h7⟩ := hpipe
  exact ⟨detail, h1, h2, h3, by rw [← hgname]; exact h4, h5, h6, h7⟩

/-- Claim C6 amended witness: on the empty store and a well-behaved payload
(developer (Atlus, Japan), genre RPG, platforms {PC, Switch}, genre tags
{Action}, preference tags {Co-op, Action}), the round trip preserves all
supplied dimension values and sets. -/
theorem create_get_roundtrip_witness :
    ∃ detail, get_game_by_id (create_game dbEmpty payGood).1
        (create_game dbEmpty payGood).2 = some detail
      ∧ detail.developer_name = payGood.developer.name
      ∧ detail.developer_country = payGood.developer.country
      ∧ detail.genre_name = str "RPG"
      ∧ (∀ x, x ∈ detail.platforms ↔ x ∈ payGood.platforms)
      ∧ (∀ x, x ∈ detail.genre_tags ↔ x ∈ payGood.genre_tags)
      ∧ (∀ x, x ∈ detail.preference_tags ↔ x ∈ payGood.preference_tags) :=
  create_get_roundtrip dbEmpty payGood (by decide) (by decide) (str "RPG") rfl (by decide)

/-- Claim C9: in relevance mode every returned game matches through a tag row
qualified by its own category — it has a tag junction to a preferences row
whose name appears in the genre-tag filter list with category 'genre', or in
the preference-tag list with category 'preference'; a supplied genre-tag name
never matches a preference-category row and symmetrically. -/
theorem tags_mode_category_qualified (db : DB) (f : Filters) (s : Str) (r : SummaryRow)
    (hmode : ¬(f.genres = [] ∧ f.preferences = [])) (hr : r ∈ search_games db f s) :
    ∃ j t, j ∈ db.game_tags ∧ j.1 = r.game_id ∧ t ∈ db.preferences ∧ t.tag_id = j.2
      ∧ ((t.name ∈ f.genres ∧ t.category = catGenre)
         ∨ (t.name ∈ f.preferences ∧ t.category = catPreference)) := by
  have hc : (f.genres.isEmpty && f.preferences.isEmpty) = false := by
    cases hg : f.genres with
    | nil =>
        cases hp : f.preferences with
        | nil => exact absurd ⟨hg, hp⟩ hmode
        | cons a l => simp [hg, hp]
    | cons a l => simp [hg]
  have he : search_games db f s = searchCore db (tagsPred f) true relLt := by
    simp [search_games, hc, search_games_by_tags]
  rw [he] at hr
  obtain ⟨g, hgin, hgmin, hsum⟩ := searchCore_elim hr
  obtain ⟨hid, _⟩ := summaryOf_fields hsum
  obtain ⟨jr, hjr, hpred⟩ := summaryOf_some_exists hsum
  have htag : tagCond f.genres f.preferences jr = true :=
    (Bool.and_eq_true_iff.mp (Bool.and_eq_true_iff.mp hpred).1).1
  obtain ⟨t, hpref, hqual⟩ := tagCond_elim htag
  obtain ⟨j, hjin, hjgid, htin, htid⟩ := joinRows_pref hjr hpref
  exact ⟨j, t, hjin, by rw [hjgid, hid], htin, htid, hqual⟩

/-- Claim C9 witness: on the concrete store with the mixed filter set, the
returned game-2 row is justified by a category-qualified tag match. -/
theorem tags_mode_category_qualified_witness :
    ∃ j t, j ∈ dbRel.game_tags ∧ j.1 = rowRel.game_id ∧ t ∈ dbRel.preferences
      ∧ t.tag_id = j.2
      ∧ ((t.name ∈ fRel.genres ∧ t.category = catGenre)
         ∨ (t.name ∈ fRel.preferences ∧ t.category = catPreference)) :=
  tags_mode_category_qualified dbRel fRel (str "release_date_desc") rowRel
    (by decide) (by decide)

/-- Claim C8 witness: on the concrete store, deleting the absent id 99 returns
false with the store unchanged, and deleting game 1 succeeds with GetById(1)
subsequently not-found. -/
theorem delete_game_spec_witness :
    delete_game dbRel 99 = (dbRel, false)
    ∧ (delete_game dbRel 1).2 = true
    ∧ get_game_by_id (delete_game dbRel 1).1 1 = none :=
  ⟨(delete_game_spec dbRel 99).1 (by decide),
   ((delete_game_spec dbRel 1).2 (by decide)).1,
   ((delete_game_spec dbRel 1).2 (by decide)).2.1⟩

end GameShiru

